import Mathlib

/-!
Shallow embedding of `pgraf/cypher.py` (class `CypherParser`): a regex-based
translator from a small Cypher subset (MATCH / WHERE / RETURN) to a sequence
of PostgreSQL query fragments.  Strings are modelled as `List Char`; the
specific regular expressions of the source are hand-compiled into equivalent
deterministic matchers; `uuid.uuid4()` draws are modelled as a supply
`g : Nat → List Char` consumed in call order.  All callers of the clause
machinery pass preprocessed (newline-free) text, matching the source's
pipeline.
-/

namespace PgrafCypher

abbrev Str := List Char

def str (s : String) : Str := s.toList

/-- `\w` for the ASCII inputs handled here: letters, digits and underscore. -/
def isWordChar (c : Char) : Bool := c.isAlphanum || c = '_'

/-- `\s`: Python whitespace class (ASCII part). -/
def isSpaceChar (c : Char) : Bool :=
  c = ' ' || c = '\t' || c = '\n' || c = '\r' || c = '\x0b' || c = '\x0c'

/-- Python `str.strip()`. -/
def trim (cs : Str) : Str :=
  ((cs.dropWhile isSpaceChar).reverse.dropWhile isSpaceChar).reverse

/-- Case-insensitive prefix test (re.IGNORECASE keyword matching). -/
def ciPref : Str → Str → Bool
  | [], _ => true
  | _ :: _, [] => false
  | k :: ks, c :: cs => k.toLower = c.toLower && ciPref ks cs

/-- Python `s.split(',')`. -/
def splitOnComma : Str → List Str
  | [] => [[]]
  | c :: rest =>
    if c = ',' then [] :: splitOnComma rest
    else
      match splitOnComma rest with
      | s :: ss => (c :: s) :: ss
      | [] => [[c]]

/-- Python `s.split(':', 1)` guarded by `':' in s`. -/
def splitFirstColon : Str → Option (Str × Str)
  | [] => none
  | ':' :: rest => some ([], rest)
  | c :: rest => (splitFirstColon rest).map (fun ab => (c :: ab.1, ab.2))

/-- Python dict assignment `d[k] = v`: replace in place or append. -/
def upsert (m : List (Str × Str)) (k v : Str) : List (Str × Str) :=
  if m.any (fun kv => kv.1 == k) then
    m.map (fun kv => if kv.1 == k then (k, v) else kv)
  else m ++ [(k, v)]

/-! ## Preprocessor (`_preprocess_query`) -/

/-- `re.sub(r'//.*?$', '', query, flags=re.MULTILINE)`: drop from each `//`
to the end of its line (the newline survives). -/
def stripLineGo : Bool → Str → Str
  | _, [] => []
  | true, '\n' :: rest => '\n' :: stripLineGo false rest
  | true, _ :: rest => stripLineGo true rest
  | false, '/' :: '/' :: rest => stripLineGo true rest
  | false, c :: rest => c :: stripLineGo false rest

/-- Is `pat` a substring? -/
def hasSub (pat : Str) : Str → Bool
  | [] => pat.isPrefixOf []
  | cs@(_ :: rest) => pat.isPrefixOf cs || hasSub pat rest

/-- `re.sub(r'/\*.*?\*/', '', query, flags=re.DOTALL)`: drop each block
comment up to the nearest `*/`; an unterminated `/*` is left in place
(no later match is possible without a closing `*/`). -/
def stripBlockGo : Bool → Str → Str
  | _, [] => []
  | true, '*' :: '/' :: rest => stripBlockGo false rest
  | true, _ :: rest => stripBlockGo true rest
  | false, '/' :: '*' :: rest =>
    if hasSub (str "*/") rest then stripBlockGo true rest
    else '/' :: '*' :: stripBlockGo false rest
  | false, c :: rest => c :: stripBlockGo false rest

/-- `re.sub(r'\s+', ' ', query)`: collapse whitespace runs to single spaces. -/
def normWsGo : Bool → Str → Str
  | _, [] => []
  | prev, c :: rest =>
    if isSpaceChar c then
      if prev then normWsGo true rest else ' ' :: normWsGo true rest
    else c :: normWsGo false rest

def preprocess (q : Str) : Str :=
  trim (normWsGo false (stripBlockGo false (stripLineGo false q)))

/-! ## Clause extraction (`_extract_clause`)

The clause regexes have the shape `KW\s+(.*?)(?:STOP1|STOP2|$)` and are
applied with `re.search` and `re.IGNORECASE` to preprocessed text.  The lazy
group stops at the earliest stop-keyword occurrence or at the end; `.` does
not cross a newline (preprocessed text contains none). -/

/-- Collect the lazy group: walk until a stop keyword matches (zero chars
consumed there) or the end of text; `$` also matches just before a final
newline.  A newline elsewhere makes the match at this start fail. -/
def scanStop (stops : List Str) : Str → Option Str
  | [] => some []
  | cs@(c :: rest) =>
    if stops.any (fun st => ciPref st cs) then some []
    else if c = '\n' then (if rest = [] then some [] else none)
    else (scanStop stops rest).map (c :: ·)

/-- Search for the leftmost keyword occurrence followed by whitespace whose
remainder admits the lazy group. -/
def extractGo (kw : Str) (stops : List Str) : Str → Option Str
  | [] => none
  | cs@(_ :: rest) =>
    if ciPref kw cs then
      match cs.drop kw.length with
      | c2 :: _ =>
        if isSpaceChar c2 then
          match scanStop stops ((cs.drop kw.length).dropWhile isSpaceChar) with
          | some s => some s
          | none => extractGo kw stops rest
        else extractGo kw stops rest
      | [] => extractGo kw stops rest
    else extractGo kw stops rest

/-- `_extract_clause`: the stripped group, or `''` when the search fails. -/
def extract1 (kw : Str) (stops : List Str) (q : Str) : Str :=
  match extractGo kw stops q with
  | some s => trim s
  | none => []

/-! ## Descriptor matchers

`_node_pattern  = \((\w+)?(?::(\w+))?\s*(?:{([^}]*)})?\)` and
`_rel_pattern   = \[(\w+)?(?::(\w+))?\s*(?:{([^}]*)})?]`, both used with
`.search`.  In this pattern the greedy `\w+` groups, the greedy `\s*` and the
greedy `[^}]*` never profit from backtracking (every continuation begins with
a character outside the repeated class), so a committed left-to-right matcher
is equivalent. -/

structure Groups where
  gvar : Option Str
  glabel : Option Str
  gprops : Option Str
deriving DecidableEq, Repr

/-- After variable and label: `\s*` then the optional `{...}` property group
and the closing delimiter. -/
def matchDescProps (closeC : Char) (gv gl : Option Str) (r3 : Str) : Option Groups :=
  match r3.dropWhile isSpaceChar with
  | '{' :: r5 =>
    (match r5.dropWhile (fun ch => ch ≠ '}') with
     | '}' :: cc :: _ =>
       if cc = closeC then
         some ⟨gv, gl, some (r5.takeWhile (fun ch => ch ≠ '}'))⟩
       else none
     | _ => none)
  | cc :: _ => if cc = closeC then some ⟨gv, gl, none⟩ else none
  | [] => none

/-- After the variable group: the optional `:(\w+)` label group. -/
def matchDescTail (closeC : Char) (gv : Option Str) (r1 : Str) : Option Groups :=
  matchDescProps closeC gv
    (match r1 with
     | ':' :: r2 =>
       if r2.takeWhile isWordChar = [] then none
       else some (r2.takeWhile isWordChar)
     | _ => none)
    (match r1 with
     | ':' :: r2 =>
       if r2.takeWhile isWordChar = [] then ':' :: r2
       else r2.dropWhile isWordChar
     | _ => r1)

def matchDescAt (openC closeC : Char) : Str → Option Groups
  | [] => none
  | c :: r0 =>
    if c = openC then
      matchDescTail closeC
        (if r0.takeWhile isWordChar = [] then none
         else some (r0.takeWhile isWordChar))
        (r0.dropWhile isWordChar)
    else none

/-- `re.search`: first position at which the descriptor pattern matches. -/
def searchDesc (openC closeC : Char) : Str → Option Groups
  | [] => none
  | cs@(_ :: rest) =>
    match matchDescAt openC closeC cs with
    | some g => some g
    | none => searchDesc openC closeC rest

def nodeSearch : Str → Option Groups := searchDesc '(' ')'

def relSearch : Str → Option Groups := searchDesc '[' ']'

/-- Property-map text `k1: v1, k2: v2` parsed as in `_parse_node` /
`_parse_pattern`: split on commas, split each entry at its first colon,
strip, and assign into a dict (later duplicate keys overwrite in place). -/
def parsePropsStr (s : Str) : List (Str × Str) :=
  if s = [] then []
  else
    (splitOnComma s).foldl
      (fun m piece =>
        match splitFirstColon piece with
        | some kv => upsert m (trim kv.1) (trim kv.2)
        | none => m) []

def parseProps : Option Str → List (Str × Str)
  | none => []
  | some s => parsePropsStr s

/-! ## Pattern parsing (`_parse_pattern`, `_parse_node`) -/

structure Node where
  var : Str
  label : Option Str
  props : List (Str × Str)
deriving DecidableEq, Repr

inductive Dir where
  | out
  | inc
deriving DecidableEq, Repr

structure Rel where
  id : Str
  var : Option Str
  rtype : Option Str
  props : List (Str × Str)
  dir : Dir
  source : Str
  target : Str
deriving DecidableEq, Repr

/-- `f'anon_{str(uuid.uuid4())[:8]}'` for the `n`-th uuid draw. -/
def anonName (g : Nat → Str) (n : Nat) : Str := str "anon_" ++ (g n).take 8

/-- `_parse_node`: regex search plus synthetic-name generation; returns the
node (if the segment matches) and the updated uuid-draw counter. -/
def parseNode (g : Nat → Str) (n : Nat) (s : Str) : Option Node × Nat :=
  match nodeSearch s with
  | none => (none, n)
  | some gr =>
    match gr.gvar with
    | some v => (some ⟨v, gr.glabel, parseProps gr.gprops⟩, n)
    | none => (some ⟨anonName g n, gr.glabel, parseProps gr.gprops⟩, n + 1)

/-- `nodes[var] = node` guarded by `var not in nodes` (insertion order kept;
the key is always the node's own variable). -/
def insertNode (nodes : List Node) (nd : Node) : List Node :=
  if nodes.any (fun x => x.var == nd.var) then nodes else nodes ++ [nd]

/-- `re.split(r'(-\[.*?]->|<-\[.*?]-)', pattern)` with captured separators:
find the first occurrence of `pat` and split around it. -/
def splitAtSub (pat : Str) : Str → Option (Str × Str)
  | [] => none
  | cs@(c :: rest) =>
    if pat.isPrefixOf cs then some ([], cs.drop pat.length)
    else (splitAtSub pat rest).map (fun ab => (c :: ab.1, ab.2))

/-- Try a separator alternative at one position: `-[.*?]->` first, then
`<-[.*?]-` (the lazy middle runs to the nearest closing delimiter). -/
def sepAt (cs : Str) : Option (Str × Str) :=
  match cs with
  | '-' :: '[' :: r =>
    (splitAtSub (str "]->") r).map
      (fun mr => ('-' :: '[' :: mr.1 ++ str "]->", mr.2))
  | '<' :: '-' :: '[' :: r =>
    (splitAtSub (str "]-") r).map
      (fun mr => ('<' :: '-' :: '[' :: mr.1 ++ str "]-", mr.2))
  | _ => none

/-- First segment up to a separator, plus the separator and remainder. -/
def splitFirst : Str → Str × Option (Str × Str)
  | [] => ([], none)
  | cs@(c :: rest) =>
    match sepAt cs with
    | some sr => ([], some sr)
    | none =>
      match splitFirst rest with
      | (s, k) => (c :: s, k)

/-- Fuelled splitter (each separator consumes at least five characters, so
`cs.length` fuel always suffices; the fuel-exhausted branch is unreachable). -/
def splitSegsF : Nat → Str → List Str
  | 0, cs => [cs]
  | fuel + 1, cs =>
    match splitFirst cs with
    | (s, none) => [s]
    | (s, some (sep, r)) => s :: sep :: splitSegsF fuel r

def splitSegs (cs : Str) : List Str := splitSegsF cs.length cs

structure Pat where
  nodes : List Node
  rels : List Rel
  counter : Nat
deriving DecidableEq, Repr

/-- The enumeration loop of `_parse_pattern`: `cur` is the running
"current node"; a relationship segment peeks at the next raw segment and
re-parses it (the next iteration parses it again as a node segment). -/
def patGo (g : Nat → Str) : List Str → Option Node → List Node → List Rel → Nat → Pat
  | [], _, nodes, rels, n => ⟨nodes, rels, n⟩
  | seg :: rest, cur, nodes, rels, n =>
    let s := trim seg
    if s = [] then patGo g rest cur nodes rels n
    else if s.head? = some '-' ∨ s.head? = some '<' then
      match relSearch s with
      | none => patGo g rest cur nodes rels n
      | some rg =>
        let dir := if s.head? = some '<' then Dir.inc else Dir.out
        let props := parseProps rg.gprops
        match cur, rest with
        | some curN, nextSeg :: _ =>
          (match parseNode g n nextSeg with
           | (some nextN, n1) =>
             let rel : Rel :=
               ⟨g n1, rg.gvar, rg.glabel, props, dir, curN.var, nextN.var⟩
             patGo g rest cur (insertNode nodes nextN) (rels ++ [rel]) (n1 + 1)
           | (none, n1) => patGo g rest cur nodes rels n1)
        | _, _ => patGo g rest cur nodes rels n
    else
      match parseNode g n s with
      | (some nd, n1) => patGo g rest (some nd) (insertNode nodes nd) rels n1
      | (none, n1) => patGo g rest cur nodes rels n1

def parsePattern (g : Nat → Str) (n : Nat) (pattern : Str) : Pat :=
  patGo g (splitSegs pattern) none [] [] n

/-! ## SQL generation (`_generate_sql`)

The output of psycopg's `sql.Composed` is modelled as a list of fragments:
`raw` for `sql.SQL` keyword text, `ident` for `sql.Identifier` (a quoted
identifier), `lit` for `sql.Literal` (an escaped literal).  A formatted
template such as `sql.SQL('{}.type = {}').format(Identifier(v), Literal(l))`
becomes its interleaved fragment list (empty keyword pieces omitted). -/

inductive Frag where
  | raw (s : Str)
  | ident (s : Str)
  | lit (s : Str)
deriving DecidableEq, Repr

/-- `value[1:-1]` when the value starts and ends with a double quote. -/
def stripQuotes (v : Str) : Str :=
  if v.head? = some '"' ∧ v.getLast? = some '"' then (v.drop 1).dropLast else v

def hasVar (nodes : List Node) (v : Str) : Bool :=
  nodes.any (fun nd => nd.var == v)

def lookupNode (nodes : List Node) (v : Str) : Option Node :=
  nodes.find? (fun nd => nd.var == v)

/-- `(\w+)\.(\w+)` used with `.match` (anchored at the item's start). -/
def propMatchAt (cs : Str) : Option (Str × Str) :=
  if cs.takeWhile isWordChar = [] then none
  else
    match cs.dropWhile isWordChar with
    | '.' :: r2 =>
      if r2.takeWhile isWordChar = [] then none
      else some (cs.takeWhile isWordChar, r2.takeWhile isWordChar)
    | _ => none

/-- One RETURN item (already stripped): property access, whole-node, `*`,
or nothing (silently skipped). -/
def perItem (nodes : List Node) (item : Str) : List (List Frag) :=
  if item.contains '.' then
    match propMatchAt item with
    | some vp =>
      if hasVar nodes vp.1 then
        [[Frag.ident vp.1, Frag.raw (str ".properties->>"), Frag.lit vp.2]]
      else []
    | none => []
  else if hasVar nodes item then [[Frag.ident item, Frag.raw (str ".*")]]
  else if item = str "*" then
    nodes.map (fun nd => [Frag.ident nd.var, Frag.raw (str ".*")])
  else []

/-- `sql.SQL(sep).join(xs)` flattened. -/
def joinComposed (sep : Str) (xs : List (List Frag)) : List Frag :=
  (List.intersperse [Frag.raw sep] xs).flatten

def allColsItems (nodes : List Node) : List (List Frag) :=
  nodes.map (fun nd => [Frag.ident nd.var, Frag.raw (str ".*")])

/-- The SELECT section: the recognized RETURN items, or all columns of every
pattern node when none is recognized. -/
def selectSection (nodes : List Node) (rc : Str) : List Frag :=
  if (splitOnComma rc).flatMap (fun pc => perItem nodes (trim pc)) = [] then
    Frag.raw (str "SELECT ") :: joinComposed (str ", ") (allColsItems nodes)
  else
    Frag.raw (str "SELECT ") :: joinComposed (str ", ")
      ((splitOnComma rc).flatMap (fun pc => perItem nodes (trim pc)))

/-- Label and property filter conditions of one node, against its alias. -/
def nodeConds (nd : Node) : List (List Frag) :=
  (match nd.label with
   | some l => [[Frag.ident nd.var, Frag.raw (str ".type = "), Frag.lit l]]
   | none => []) ++
  nd.props.map (fun kv =>
    [Frag.ident nd.var, Frag.raw (str ".properties->>"), Frag.lit kv.1,
     Frag.raw (str "="), Frag.lit (stripQuotes kv.2)])

/-- Edge alias: the explicit variable, or derived `r_<source>_<target>`. -/
def relAlias (r : Rel) : Str :=
  match r.var with
  | some v => v
  | none => str "r_" ++ r.source ++ str "_" ++ r.target

def nodeJoinChunk (v : Str) : List Frag :=
  [Frag.raw (str " JOIN pgraf.nodes AS "), Frag.ident v, Frag.raw (str " ON TRUE")]

/-- The per-relationship JOIN loop: edge join with direction-dependent
condition, optional edge type filter, and an unconditional node join for the
target whenever it is not the first node, whose label/property filters go to
the accumulated WHERE conditions.  `none` models the `KeyError` path of
`nodes[target_var]`. -/
def buildJoins (nodes : List Node) (fv : Str) :
    List Rel → Option (List (List Frag) × List (List Frag))
  | [] => some ([], [])
  | r :: rest =>
    let a := relAlias r
    let j1 := [Frag.raw (str " JOIN pgraf.edges AS "), Frag.ident a,
               Frag.raw (str " ON ")]
    let j2 :=
      if r.dir = Dir.out then
        [Frag.raw (str "("), Frag.ident r.source, Frag.raw (str ".id = "),
         Frag.ident a, Frag.raw (str ".source AND")]
      else
        [Frag.raw (str "("), Frag.ident r.source, Frag.raw (str ".id = "),
         Frag.ident a, Frag.raw (str ".target AND")]
    let j3 :=
      match r.rtype with
      | some t => [[Frag.raw (str " "), Frag.ident a, Frag.raw (str ".label = "),
                    Frag.lit t, Frag.raw (str " AND")]]
      | none => []
    let j4 :=
      if r.dir = Dir.out then
        [Frag.raw (str " "), Frag.ident a, Frag.raw (str ".target = "),
         Frag.ident r.target, Frag.raw (str ".id)")]
      else
        [Frag.raw (str " "), Frag.ident a, Frag.raw (str ".source = "),
         Frag.ident r.target, Frag.raw (str ".id)")]
    if r.target = fv then
      (buildJoins nodes fv rest).map
        (fun jc => ([j1, j2] ++ j3 ++ [j4] ++ jc.1, jc.2))
    else
      match lookupNode nodes r.target with
      | none => none
      | some tn =>
        (buildJoins nodes fv rest).map
          (fun jc => ([j1, j2] ++ j3 ++ [j4, nodeJoinChunk r.target] ++ jc.1,
                      nodeConds tn ++ jc.2))

/-! WHERE comparison: `re.search(r'(\w+)\.(\w+)\s*([=><!]=?)\s*([^,\s]+)', wc)`.
The greedy pieces never profit from backtracking except the optional `=`,
which falls back to the one-character operator (and then the value begins
with the leftover `=`, hence is never empty). -/

def opClass : List Char := ['=', '>', '<', '!']

def isValChar (c : Char) : Bool := !(c = ',' || isSpaceChar c)

def matchCmpAt (cs : Str) : Option (Str × Str × Str × Str) :=
  if cs.takeWhile isWordChar = [] then none
  else
    match cs.dropWhile isWordChar with
    | '.' :: r2 =>
      if r2.takeWhile isWordChar = [] then none
      else
        match (r2.dropWhile isWordChar).dropWhile isSpaceChar with
        | c :: r5 =>
          if c ∈ opClass then
            match r5 with
            | '=' :: r6 =>
              if (r6.dropWhile isSpaceChar).takeWhile isValChar = [] then
                some (cs.takeWhile isWordChar, r2.takeWhile isWordChar, [c],
                      r5.takeWhile isValChar)
              else
                some (cs.takeWhile isWordChar, r2.takeWhile isWordChar,
                      [c, '='], (r6.dropWhile isSpaceChar).takeWhile isValChar)
            | _ =>
              if (r5.dropWhile isSpaceChar).takeWhile isValChar = [] then none
              else
                some (cs.takeWhile isWordChar, r2.takeWhile isWordChar, [c],
                      (r5.dropWhile isSpaceChar).takeWhile isValChar)
          else none
        | [] => none
    | _ => none

def findCmp : Str → Option (Str × Str × Str × Str)
  | [] => none
  | cs@(_ :: rest) =>
    match matchCmpAt cs with
    | some r => some r
    | none => findCmp rest

/-- The conditions contributed by the WHERE clause text (zero or one). -/
def whereConds (nodes : List Node) (wc : Str) : List (List Frag) :=
  if wc = [] then []
  else
    match findCmp wc with
    | some (v, p, o, val) =>
      if hasVar nodes v then
        [[Frag.raw (str "("), Frag.ident v, Frag.raw (str ".properties->>"),
          Frag.lit p, Frag.raw (str ") "), Frag.raw o, Frag.raw (str " "),
          Frag.lit (stripQuotes val)]]
      else []
    | none => []

/-- `_generate_sql`.  `none` models the uncaught exceptions: `StopIteration`
on an empty node mapping, `KeyError` on a missing join target. -/
def generateSql (nodes : List Node) (rels : List Rel) (wc rc : Str) :
    Option (List Frag) :=
  match nodes with
  | [] => none
  | first :: _ =>
    let fv := first.var
    match buildJoins nodes fv rels with
    | none => none
    | some jc =>
      let conds := nodeConds first ++ jc.2 ++ whereConds nodes wc
      let whereF :=
        if conds = [] then []
        else Frag.raw (str " WHERE ") :: joinComposed (str " AND ") conds
      some (selectSection nodes rc ++
            [Frag.raw (str " FROM pgraf.nodes AS "), Frag.ident fv] ++
            jc.1.flatten ++ whereF)

/-! ## Top-level `parse` -/

inductive PErr where
  | noMatch
  | noReturn
  | crash
deriving DecidableEq, Repr

def kwMatch : Str := str "match"
def kwWhere : Str := str "where"
def kwReturn : Str := str "return"

def matchClauseOf (q : Str) : Str :=
  extract1 kwMatch [kwWhere, kwReturn] (preprocess q)

def whereClauseOf (q : Str) : Str :=
  extract1 kwWhere [kwReturn] (preprocess q)

def returnClauseOf (q : Str) : Str :=
  extract1 kwReturn [] (preprocess q)

/-- `CypherParser.parse`, with the uuid supply `g` made explicit.  The error
cases: missing MATCH, missing RETURN (both `ValueError`), and the uncaught
crash of `_generate_sql` described above. -/
def parse (g : Nat → Str) (q : Str) : Except PErr (List Frag) :=
  if matchClauseOf q = [] then .error .noMatch
  else if returnClauseOf q = [] then .error .noReturn
  else
    match generateSql (parsePattern g 0 (matchClauseOf q)).nodes
        (parsePattern g 0 (matchClauseOf q)).rels
        (whereClauseOf q) (returnClauseOf q) with
    | some out => .ok out
    | none => .error .crash

/-! ## Shared helper lemmas and concrete witness material -/

theorem infix_flatten_of_mem {α : Type} {l : List (List α)} {x : List α}
    (h : x ∈ l) : x <:+: l.flatten := by
  induction l with
  | nil => cases h
  | cons hd tl ih =>
    rcases List.mem_cons.mp h with h1 | h1
    · subst h1
      exact (List.prefix_append x tl.flatten).isInfix
    · exact (ih h1).trans (List.suffix_append hd tl.flatten).isInfix

/-- A concrete injective uuid supply for witnesses: two decimal digits. -/
def gw (k : Nat) : Str := [Char.ofNat (48 + k / 10), Char.ofNat (48 + k % 10)]

/-- A second concrete supply, distinct from `gw`, for the determinism claim. -/
def gw2 (k : Nat) : Str := [Char.ofNat (65 + k / 10), Char.ofNat (65 + k % 10)]

def q8 : Str := str "MATCH (a)-[:R]->() RETURN *"

def out8 : List Frag := ((parse gw q8).toOption.getD [])

def q8b : Str := str "MATCH (a)-[:R]->() RETURN zzz"

def out8b : List Frag := ((parse gw q8b).toOption.getD [])

/-! ## C10: keyword present but not followed by whitespace -/

/-- The commit test of `extractGo` at one position: keyword match (case
insensitive) immediately followed by at least one whitespace character. -/
def kwSpaced (kw : Str) (cs : Str) : Bool :=
  ciPref kw cs &&
    (match cs.drop kw.length with
     | c :: _ => isSpaceChar c
     | [] => false)

theorem extractGo_eq_none (kw : Str) (stops : List Str) (cs : Str)
    (h : ∀ i, i < cs.length → kwSpaced kw (cs.drop i) = false) :
    extractGo kw stops cs = none := by
  induction cs with
  | nil => rfl
  | cons c rest ih =>
    have h0 := h 0 (Nat.succ_pos _)
    simp only [List.drop_zero] at h0
    have hrest : extractGo kw stops rest = none := by
      refine ih (fun i hi => ?_)
      have := h (i + 1) (by simpa using Nat.succ_lt_succ hi)
      simpa using this
    unfold extractGo
    simp only [kwSpaced, Bool.and_eq_false_iff] at h0
    rcases h0 with h0 | h0
    · simp [h0, hrest]
    · by_cases hp : ciPref kw (c :: rest) = true
      · simp only [hp, if_true]
        cases hd : (c :: rest).drop kw.length with
        | nil => simpa [hd] using hrest
        | cons c2 r2 =>
          rw [hd] at h0
          have h0x : isSpaceChar c2 = false := h0
          simp only [hd]
          simp [h0x, hrest]
      · simp [hp, hrest]

/-- C10: when the (preprocessed) query contains the MATCH keyword but no
occurrence of it is followed by whitespace, clause extraction is empty and
translation fails with the missing-MATCH error; likewise for RETURN (once a
MATCH clause was extracted) with the missing-RETURN error. -/
theorem c10_keyword_without_whitespace (g : Nat → Str) (q : Str) :
    ((∃ i, i < (preprocess q).length ∧ ciPref kwMatch ((preprocess q).drop i) = true) →
     (∀ i, i < (preprocess q).length → kwSpaced kwMatch ((preprocess q).drop i) = false) →
     parse g q = .error .noMatch) ∧
    (matchClauseOf q ≠ [] →
     (∃ i, i < (preprocess q).length ∧ ciPref kwReturn ((preprocess q).drop i) = true) →
     (∀ i, i < (preprocess q).length → kwSpaced kwReturn ((preprocess q).drop i) = false) →
     parse g q = .error .noReturn) := by
  constructor
  · intro _ hall
    have hmc : matchClauseOf q = [] := by
      unfold matchClauseOf extract1
      rw [extractGo_eq_none _ _ _ hall]
    unfold parse
    simp [hmc]
  · intro hmc _ hall
    have hrc : returnClauseOf q = [] := by
      unfold returnClauseOf extract1
      rw [extractGo_eq_none _ _ _ hall]
    unfold parse
    simp [hmc, hrc]

/-- Witness for C10 at `MATCH(n) RETURN n` and `MATCH (n) RETURN(n)`. -/
theorem c10_witness :
    parse gw (str "MATCH(n) RETURN n") = .error .noMatch ∧
    parse gw (str "MATCH (n) RETURN(n)") = .error .noReturn :=
  ⟨(c10_keyword_without_whitespace gw (str "MATCH(n) RETURN n")).1
      (by decide) (by decide),
   (c10_keyword_without_whitespace gw (str "MATCH (n) RETURN(n)")).2
      (by decide) (by decide) (by decide)⟩

/-! ## C1: failure characterization -/

instance : DecidableEq (Except PErr (List Frag)) := fun a b =>
  match a, b with
  | .error e1, .error e2 =>
    if h : e1 = e2 then .isTrue (by rw [h])
    else .isFalse (fun hc => by cases hc; exact h rfl)
  | .ok o1, .ok o2 =>
    if h : o1 = o2 then .isTrue (by rw [h])
    else .isFalse (fun hc => by cases hc; exact h rfl)
  | .error _, .ok _ => .isFalse (fun hc => by cases hc)
  | .ok _, .error _ => .isFalse (fun hc => by cases hc)

theorem hasVar_insertNode_of {nodes : List Node} {v : Str} (nd : Node)
    (h : hasVar nodes v = true) : hasVar (insertNode nodes nd) v = true := by
  unfold insertNode
  split
  · exact h
  · unfold hasVar at h ⊢
    simp [List.any_append, h]

theorem hasVar_insertNode_self (nodes : List Node) (nd : Node) :
    hasVar (insertNode nodes nd) nd.var = true := by
  unfold insertNode
  split
  · rename_i h
    exact h
  · unfold hasVar
    simp [List.any_append]

/-- Every relationship target recorded by the pattern loop has an entry in
the node mapping (the source guards each insertion). -/
theorem patGo_targets (g : Nat → Str) :
    ∀ (segs : List Str) (cur : Option Node) (nodes : List Node)
      (rels : List Rel) (n : Nat),
      (∀ r ∈ rels, hasVar nodes r.target = true) →
      ∀ r ∈ (patGo g segs cur nodes rels n).rels,
        hasVar (patGo g segs cur nodes rels n).nodes r.target = true := by
  intro segs
  induction segs with
  | nil =>
    intro cur nodes rels n h r hr
    exact h r hr
  | cons seg rest ih =>
    intro cur nodes rels n h
    simp only [patGo]
    split
    · exact ih _ _ _ _ h
    · split
      · split
        · exact ih _ _ _ _ h
        · split
          · split
            · refine ih _ _ _ _ ?_
              intro r hr
              rcases List.mem_append.mp hr with hr1 | hr1
              · exact hasVar_insertNode_of _ (h r hr1)
              · have hre := List.mem_singleton.mp hr1
                subst hre
                exact hasVar_insertNode_self _ _
            · exact ih _ _ _ _ h
          · exact ih _ _ _ _ h
      · split
        · refine ih _ _ _ _ ?_
          intro r hr
          exact hasVar_insertNode_of _ (h r hr)
        · exact ih _ _ _ _ h

theorem lookupNode_isSome {nodes : List Node} {v : Str}
    (h : hasVar nodes v = true) : ∃ tn, lookupNode nodes v = some tn := by
  unfold hasVar at h
  unfold lookupNode
  rw [List.any_eq_true] at h
  obtain ⟨x, hx, hxv⟩ := h
  have : (nodes.find? (fun nd => nd.var == v)).isSome = true := by
    rw [List.find?_isSome]
    exact ⟨x, hx, hxv⟩
  exact Option.isSome_iff_exists.mp this

theorem buildJoins_isSome (nodes : List Node) (fv : Str) :
    ∀ rels : List Rel, (∀ r ∈ rels, hasVar nodes r.target = true) →
      (buildJoins nodes fv rels).isSome = true := by
  intro rels
  induction rels with
  | nil => exact fun _ => rfl
  | cons r rest ih =>
    intro h
    have hrest := ih (fun x hx => h x (List.mem_cons_of_mem _ hx))
    obtain ⟨jc, hjc⟩ := Option.isSome_iff_exists.mp hrest
    by_cases ht : r.target = fv
    · simp [buildJoins, ht, hjc]
    · obtain ⟨tn, htn⟩ := lookupNode_isSome (h r (List.mem_cons_self r rest))
      simp [buildJoins, ht, htn, hjc]

theorem generateSql_total (nodes : List Node) (rels : List Rel) (wc rc : Str)
    (h : ∀ r ∈ rels, hasVar nodes r.target = true) (hne : nodes ≠ []) :
    ∃ out, generateSql nodes rels wc rc = some out := by
  cases nodes with
  | nil => exact absurd rfl hne
  | cons first tl =>
    obtain ⟨jc, hjc⟩ := Option.isSome_iff_exists.mp
      (buildJoins_isSome (first :: tl) first.var rels h)
    have hs : (generateSql (first :: tl) rels wc rc).isSome = true := by
      simp [generateSql, hjc]
    exact Option.isSome_iff_exists.mp hs

/-- C1 counterexample: `MATCH x RETURN *` has non-empty MATCH and RETURN
clause text, yet translation does not return a query — it dies with the
uncaught `StopIteration` of `next(iter(nodes.values()))` (no node segment
parses, so the node mapping is empty), contradicting the claim that a
structural failure happens only on empty clause text and that every other
input yields a complete query. -/
theorem c1_cex_nonempty_clauses_crash :
    matchClauseOf (str "MATCH x RETURN *") ≠ [] ∧
    returnClauseOf (str "MATCH x RETURN *") ≠ [] ∧
    parse gw (str "MATCH x RETURN *") = .error .crash :=
  ⟨by decide, by decide, by decide⟩

/-- C1 (amended): `translate` raises the missing-MATCH error iff the
extracted MATCH text is empty; the missing-RETURN error iff MATCH text is
non-empty and RETURN text is empty; it crashes (uncaught `StopIteration`)
iff both clauses are non-empty but no node could be parsed from the MATCH
clause; and in every remaining case it returns a complete query. -/
theorem c1_failure_characterization (g : Nat → Str) (q : Str) :
    (parse g q = .error .noMatch ↔ matchClauseOf q = []) ∧
    (parse g q = .error .noReturn ↔
      (matchClauseOf q ≠ [] ∧ returnClauseOf q = [])) ∧
    (parse g q = .error .crash ↔
      (matchClauseOf q ≠ [] ∧ returnClauseOf q ≠ [] ∧
       (parsePattern g 0 (matchClauseOf q)).nodes = [])) ∧
    ((∃ out, parse g q = .ok out) ↔
      (matchClauseOf q ≠ [] ∧ returnClauseOf q ≠ [] ∧
       (parsePattern g 0 (matchClauseOf q)).nodes ≠ [])) := by
  have htgt : ∀ r ∈ (parsePattern g 0 (matchClauseOf q)).rels,
      hasVar (parsePattern g 0 (matchClauseOf q)).nodes r.target = true :=
    patGo_targets g (splitSegs (matchClauseOf q)) none [] [] 0 (by simp)
  by_cases hmc : matchClauseOf q = []
  · have hp : parse g q = .error .noMatch := by
      unfold parse
      simp [hmc]
    refine ⟨by simp [hp, hmc], by simp [hp, hmc], by simp [hp, hmc], ?_⟩
    simp [hp, hmc]
  · by_cases hrc : returnClauseOf q = []
    · have hp : parse g q = .error .noReturn := by
        unfold parse
        simp [hmc, hrc]
      refine ⟨by simp [hp, hmc], by simp [hp, hmc, hrc], by simp [hp, hrc], ?_⟩
      simp [hp, hrc]
    · by_cases hnd : (parsePattern g 0 (matchClauseOf q)).nodes = []
      · have hgen : generateSql (parsePattern g 0 (matchClauseOf q)).nodes
            (parsePattern g 0 (matchClauseOf q)).rels
            (whereClauseOf q) (returnClauseOf q) = none := by
          rw [hnd]
          rfl
        have hp : parse g q = .error .crash := by
          unfold parse
          simp [hmc, hrc, hgen]
        refine ⟨by simp [hp, hmc], by simp [hp, hrc], by simp [hp, hmc, hrc, hnd], ?_⟩
        simp [hp, hnd]
      · obtain ⟨out, hout⟩ := generateSql_total _ _ (whereClauseOf q)
          (returnClauseOf q) htgt hnd
        have hp : parse g q = .ok out := by
          unfold parse
          simp [hmc, hrc, hout]
        refine ⟨by simp [hp, hmc], by simp [hp, hrc], by simp [hp, hnd], ?_⟩
        constructor
        · intro _
          exact ⟨hmc, hrc, hnd⟩
        · intro _
          exact ⟨out, hp⟩

/-! ## C2: direction-dependent edge join conditions -/

/-- Opening fragment run of a relationship's edge-join condition. -/
def edgeOpen (r : Rel) : List Frag :=
  if r.dir = Dir.out then
    [Frag.raw (str "("), Frag.ident r.source, Frag.raw (str ".id = "),
     Frag.ident (relAlias r), Frag.raw (str ".source AND")]
  else
    [Frag.raw (str "("), Frag.ident r.source, Frag.raw (str ".id = "),
     Frag.ident (relAlias r), Frag.raw (str ".target AND")]

/-- Closing fragment run of a relationship's edge-join condition. -/
def edgeClose (r : Rel) : List Frag :=
  if r.dir = Dir.out then
    [Frag.raw (str " "), Frag.ident (relAlias r), Frag.raw (str ".target = "),
     Frag.ident r.target, Frag.raw (str ".id)")]
  else
    [Frag.raw (str " "), Frag.ident (relAlias r), Frag.raw (str ".source = "),
     Frag.ident r.target, Frag.raw (str ".id)")]

theorem buildJoins_some_shape (nodes : List Node) (fv : Str) (r : Rel)
    (rest : List Rel) (jc : List (List Frag) × List (List Frag))
    (h : buildJoins nodes fv (r :: rest) = some jc) :
    ∃ jc0, buildJoins nodes fv rest = some jc0 ∧
      ∃ mid, jc.1 = [ [Frag.raw (str " JOIN pgraf.edges AS "),
                       Frag.ident (relAlias r), Frag.raw (str " ON ")],
                     edgeOpen r ] ++ mid ++ [edgeClose r] ++
               (if r.target = fv then ([] : List (List Frag))
                else [nodeJoinChunk r.target]) ++ jc0.1 ∧
        (∀ x ∈ mid, ∃ t, x = [Frag.raw (str " "), Frag.ident (relAlias r),
            Frag.raw (str ".label = "), Frag.lit t, Frag.raw (str " AND")]) := by
  by_cases ht : r.target = fv
  · simp only [buildJoins, ht, if_true] at h
    cases hrest : buildJoins nodes fv rest with
    | none => rw [hrest] at h; cases h
    | some jc0 =>
      rw [hrest] at h
      simp only [Option.map_some', Option.some.injEq] at h
      refine ⟨jc0, rfl, ?_⟩
      cases hty : r.rtype with
      | none =>
        refine ⟨[], ?_, by simp⟩
        rw [← h]
        simp [hty, edgeOpen, edgeClose, ht]
      | some t =>
        refine ⟨[[Frag.raw (str " "), Frag.ident (relAlias r),
          Frag.raw (str ".label = "), Frag.lit t, Frag.raw (str " AND")]], ?_, ?_⟩
        · rw [← h]
          simp [hty, edgeOpen, edgeClose, ht]
        · intro x hx
          exact ⟨t, List.mem_singleton.mp hx⟩
  · simp only [buildJoins, ht, if_false] at h
    cases hlk : lookupNode nodes r.target with
    | none => rw [hlk] at h; cases h
    | some tn =>
      rw [hlk] at h
      cases hrest : buildJoins nodes fv rest with
      | none => rw [hrest] at h; cases h
      | some jc0 =>
        rw [hrest] at h
        simp only [Option.map_some', Option.some.injEq] at h
        refine ⟨jc0, rfl, ?_⟩
        cases hty : r.rtype with
        | none =>
          refine ⟨[], ?_, by simp⟩
          rw [← h]
          simp [hty, edgeOpen, edgeClose, ht]
        | some t =>
          refine ⟨[[Frag.raw (str " "), Frag.ident (relAlias r),
            Frag.raw (str ".label = "), Frag.lit t, Frag.raw (str " AND")]], ?_, ?_⟩
          · rw [← h]
            simp [hty, edgeOpen, edgeClose, ht]
          · intro x hx
            exact ⟨t, List.mem_singleton.mp hx⟩

theorem buildJoins_mem_edge_chunks (nodes : List Node) (fv : Str) :
    ∀ (rels : List Rel) (jc : List (List Frag) × List (List Frag)),
      buildJoins nodes fv rels = some jc →
      ∀ r ∈ rels, edgeOpen r ∈ jc.1 ∧ edgeClose r ∈ jc.1 := by
  intro rels
  induction rels with
  | nil =>
    intro jc _ r hr
    cases hr
  | cons r0 rest ih =>
    intro jc hjc r hr
    obtain ⟨jc0, hrest, mid, hshape, _⟩ :=
      buildJoins_some_shape nodes fv r0 rest jc hjc
    rcases List.mem_cons.mp hr with hr1 | hr1
    · subst hr1
      rw [hshape]
      constructor
      · simp
      · simp
    · have hm := ih jc0 hrest r hr1
      rw [hshape]
      constructor
      · simp [hm.1]
      · simp [hm.2]

/-- C2: in every generated query, an OUTGOING relationship's edge-join
condition equates the current node's id with the edge alias's source column
and the edge alias's target column with the next node's id; an INCOMING
relationship binds the opposite pairing. -/
theorem c2_join_direction_mapping (g : Nat → Str) (q : Str) (out : List Frag)
    (hout : parse g q = .ok out) :
    ∀ r ∈ (parsePattern g 0 (matchClauseOf q)).rels,
      (r.dir = Dir.out →
        [Frag.raw (str "("), Frag.ident r.source, Frag.raw (str ".id = "),
         Frag.ident (relAlias r), Frag.raw (str ".source AND")] <:+: out ∧
        [Frag.raw (str " "), Frag.ident (relAlias r), Frag.raw (str ".target = "),
         Frag.ident r.target, Frag.raw (str ".id)")] <:+: out) ∧
      (r.dir = Dir.inc →
        [Frag.raw (str "("), Frag.ident r.source, Frag.raw (str ".id = "),
         Frag.ident (relAlias r), Frag.raw (str ".target AND")] <:+: out ∧
        [Frag.raw (str " "), Frag.ident (relAlias r), Frag.raw (str ".source = "),
         Frag.ident r.target, Frag.raw (str ".id)")] <:+: out) := by
  intro r hr
  unfold parse at hout
  by_cases hmc : matchClauseOf q = []
  · rw [if_pos hmc] at hout
    cases hout
  · rw [if_neg hmc] at hout
    by_cases hrc : returnClauseOf q = []
    · rw [if_pos hrc] at hout
      cases hout
    · rw [if_neg hrc] at hout
      cases hgen : generateSql (parsePattern g 0 (matchClauseOf q)).nodes
          (parsePattern g 0 (matchClauseOf q)).rels
          (whereClauseOf q) (returnClauseOf q) with
      | none =>
        rw [hgen] at hout
        cases hout
      | some o =>
        rw [hgen] at hout
        have ho : o = out := by
          cases hout
          rfl
        subst ho
        cases hnodes : (parsePattern g 0 (matchClauseOf q)).nodes with
        | nil => rw [hnodes] at hgen; cases hgen
        | cons first tl =>
          rw [hnodes] at hgen
          simp only [generateSql] at hgen
          cases hbj : buildJoins (first :: tl) first.var
              (parsePattern g 0 (matchClauseOf q)).rels with
          | none => rw [hbj] at hgen; cases hgen
          | some jc =>
            rw [hbj] at hgen
            simp only [Option.some.injEq] at hgen
            have hmem := buildJoins_mem_edge_chunks (first :: tl) first.var
              (parsePattern g 0 (matchClauseOf q)).rels jc hbj r hr
            have hinfix : ∀ x ∈ jc.1, x <:+: o := by
              intro x hx
              have h1 : x <:+: jc.1.flatten := infix_flatten_of_mem hx
              rw [← hgen]
              refine (h1.trans ?_)
              refine List.IsInfix.trans ?_ (List.prefix_append _ _).isInfix
              exact (List.suffix_append _ _).isInfix
            constructor
            · intro hd
              have h1 := hinfix _ hmem.1
              have h2 := hinfix _ hmem.2
              rw [edgeOpen, if_pos hd] at h1
              rw [edgeClose, if_pos hd] at h2
              exact ⟨h1, h2⟩
            · intro hd
              have hdn : ¬ r.dir = Dir.out := by
                rw [hd]
                intro hc
                cases hc
              have h1 := hinfix _ hmem.1
              have h2 := hinfix _ hmem.2
              rw [edgeOpen, if_neg hdn] at h1
              rw [edgeClose, if_neg hdn] at h2
              exact ⟨h1, h2⟩

/-- Witness for C2 at `MATCH (a)-[:R]->(b)<-[s:S]-(c) RETURN *`. -/
theorem c2_witness :
    ([Frag.raw (str "("), Frag.ident (str "a"), Frag.raw (str ".id = "),
      Frag.ident (str "r_a_b"), Frag.raw (str ".source AND")] <:+:
        ((parse gw (str "MATCH (a)-[:R]->(b)<-[s:S]-(c) RETURN *")).toOption.getD [])) ∧
    ([Frag.raw (str "("), Frag.ident (str "b"), Frag.raw (str ".id = "),
      Frag.ident (str "s"), Frag.raw (str ".target AND")] <:+:
        ((parse gw (str "MATCH (a)-[:R]->(b)<-[s:S]-(c) RETURN *")).toOption.getD [])) := by
  have h1 := c2_join_direction_mapping gw
    (str "MATCH (a)-[:R]->(b)<-[s:S]-(c) RETURN *")
    ((parse gw (str "MATCH (a)-[:R]->(b)<-[s:S]-(c) RETURN *")).toOption.getD [])
    rfl
  refine ⟨?_, ?_⟩
  · have hm : (⟨gw 0, none, some (str "R"), [], Dir.out, str "a", str "b"⟩ : Rel) ∈
        (parsePattern gw 0 (matchClauseOf
          (str "MATCH (a)-[:R]->(b)<-[s:S]-(c) RETURN *"))).rels := by decide
    exact ((h1 _ hm).1 rfl).1
  · have hm : (⟨gw 1, some (str "s"), some (str "S"), [], Dir.inc, str "b", str "c"⟩ : Rel) ∈
        (parsePattern gw 0 (matchClauseOf
          (str "MATCH (a)-[:R]->(b)<-[s:S]-(c) RETURN *"))).rels := by decide
    exact ((h1 _ hm).2 rfl).1

/-! ## C4: the target-node join condition -/

theorem nodeJoinChunk_inj {a b : Str} : nodeJoinChunk a = nodeJoinChunk b ↔ a = b := by
  simp [nodeJoinChunk]

theorem buildJoins_count_nodeJoin (nodes : List Node) (fv v : Str) :
    ∀ (rels : List Rel) (jc : List (List Frag) × List (List Frag)),
      buildJoins nodes fv rels = some jc →
      jc.1.count (nodeJoinChunk v) =
        (if v = fv then 0 else (rels.filter (fun r => r.target == v)).length) := by
  intro rels
  induction rels with
  | nil =>
    intro jc hjc
    have h0 : jc = ([], []) := by
      simpa [buildJoins] using hjc.symm
    subst h0
    simp
  | cons r rest ih =>
    intro jc hjc
    obtain ⟨jc0, hrest, mid, hshape, hmid⟩ :=
      buildJoins_some_shape nodes fv r rest jc hjc
    have ihc := ih jc0 hrest
    have hj1 : nodeJoinChunk v ≠ [Frag.raw (str " JOIN pgraf.edges AS "),
        Frag.ident (relAlias r), Frag.raw (str " ON ")] := by
      intro h
      have h1 := congrArg List.head? h
      simp only [nodeJoinChunk, List.head?] at h1
      exact absurd h1 (by decide)
    have hopen : nodeJoinChunk v ≠ edgeOpen r := by
      intro h
      have h1 := congrArg List.length h
      unfold edgeOpen nodeJoinChunk at h1
      by_cases hd : r.dir = Dir.out <;> simp [hd] at h1
    have hclose : nodeJoinChunk v ≠ edgeClose r := by
      intro h
      have h1 := congrArg List.length h
      unfold edgeClose nodeJoinChunk at h1
      by_cases hd : r.dir = Dir.out <;> simp [hd] at h1
    have hmid0 : mid.count (nodeJoinChunk v) = 0 := by
      rw [List.count_eq_zero]
      intro hmem
      obtain ⟨t, ht⟩ := hmid _ hmem
      have h1 := congrArg List.length ht
      simp [nodeJoinChunk] at h1
    have cA : List.count (nodeJoinChunk v)
        [[Frag.raw (str " JOIN pgraf.edges AS "), Frag.ident (relAlias r),
          Frag.raw (str " ON ")], edgeOpen r] = 0 := by
      simp [List.count_cons, hj1, hopen]
    have cC : List.count (nodeJoinChunk v) [edgeClose r] = 0 := by
      simp [List.count_cons, hclose]
    have harm : List.count (nodeJoinChunk v)
        (if r.target = fv then ([] : List (List Frag))
         else [nodeJoinChunk r.target]) =
        if r.target = fv then 0 else (if r.target = v then 1 else 0) := by
      by_cases ht : r.target = fv
      · simp [ht]
      · by_cases htv : r.target = v
        · subst htv
          simp [ht]
        · have hne : nodeJoinChunk v ≠ nodeJoinChunk r.target :=
            fun hc => htv (nodeJoinChunk_inj.mp hc).symm
          simp [ht, htv, List.count_cons, hne]
    rw [hshape]
    simp only [List.count_append, cA, cC, hmid0, harm, ihc]
    by_cases hvf : v = fv
    · have hall : ∀ x ∈ rest ++ [r], ¬ (x.target = v ∧ ¬ x.target = fv) := by
        intro x _ hc
        exact hc.2 (hc.1.trans hvf)
      by_cases ht : r.target = fv
      · simp [hvf, ht]
      · have : ¬ r.target = v := fun hc =>
          (hall r (List.mem_append.mpr (Or.inr (List.mem_singleton.mpr rfl))))
            ⟨hc, ht⟩
        simp [hvf, ht, this]
    · simp only [hvf, if_false, List.filter_cons]
      by_cases ht : r.target = fv
      · have htv : ¬ r.target = v := fun hc => hvf (hc.symm.trans ht)
        have hb : (r.target == v) = false := by simp [htv]
        have hfv : ¬ fv = v := fun hc => hvf hc.symm
        simp [ht, hb, hfv]
      · by_cases htv : r.target = v
        · have hb : (r.target == v) = true := by simp [htv]
          simp [ht, htv, hb, hvf, Nat.add_comm]
        · have hb : (r.target == v) = false := by simp [htv]
          simp [ht, htv, hb, hvf]

theorem buildJoins_conds_eq (nodes : List Node) (fv : Str) :
    ∀ (rels : List Rel) (jc : List (List Frag) × List (List Frag)),
      buildJoins nodes fv rels = some jc →
      jc.2 = rels.flatMap (fun r =>
        if r.target = fv then []
        else
          match lookupNode nodes r.target with
          | some tn => nodeConds tn
          | none => []) := by
  intro rels
  induction rels with
  | nil =>
    intro jc hjc
    have h0 : jc = ([], []) := by
      simpa [buildJoins] using hjc.symm
    subst h0
    simp
  | cons r rest ih =>
    intro jc hjc
    by_cases ht : r.target = fv
    · simp only [buildJoins, ht, if_true] at hjc
      cases hrest : buildJoins nodes fv rest with
      | none => rw [hrest] at hjc; cases hjc
      | some jc0 =>
        rw [hrest] at hjc
        simp only [Option.map_some', Option.some.injEq] at hjc
        rw [← hjc]
        simp only [List.flatMap_cons, ht, if_true, List.nil_append]
        exact ih jc0 hrest
    · simp only [buildJoins, ht, if_false] at hjc
      cases hlk : lookupNode nodes r.target with
      | none => rw [hlk] at hjc; cases hjc
      | some tn =>
        rw [hlk] at hjc
        cases hrest : buildJoins nodes fv rest with
        | none => rw [hrest] at hjc; cases hjc
        | some jc0 =>
          rw [hrest] at hjc
          simp only [Option.map_some', Option.some.injEq] at hjc
          rw [← hjc]
          simp only [List.flatMap_cons, ht, if_false, hlk]
          rw [ih jc0 hrest]

/-- C4 counterexample: in `MATCH (a)-[:R]->(b)-[:S]->(b) RETURN *` the node
`b` receives an unconditional node JOIN from the first relationship and a
second identical JOIN from the second relationship, although it already
appeared as a JOIN source — the claim says a second join must not happen. -/
theorem c4_cex_double_join :
    ((buildJoins (parsePattern gw 0 (matchClauseOf
        (str "MATCH (a)-[:R]->(b)-[:S]->(b) RETURN *"))).nodes (str "a")
        (parsePattern gw 0 (matchClauseOf
        (str "MATCH (a)-[:R]->(b)-[:S]->(b) RETURN *"))).rels).getD
        ([], [])).1.count (nodeJoinChunk (str "b")) = 2 ∧
    (parsePattern gw 0 (matchClauseOf
        (str "MATCH (a)-[:R]->(b)-[:S]->(b) RETURN *"))).nodes.map Node.var =
      [str "a", str "b"] ∧
    (parse gw (str "MATCH (a)-[:R]->(b)-[:S]->(b) RETURN *")).toOption.isSome = true :=
  ⟨by decide, by decide, by decide⟩

/-- C4 (amended): per relationship in encounter order, the unconditional
target-node JOIN is emitted exactly when the target variable differs from the
first node's variable — once per such relationship, so a repeated target is
joined once per relationship naming it — and the target node's label and
property filters are folded into the accumulated WHERE conditions (in
relationship order) rather than into the join predicate. -/
theorem c4_target_join_per_relationship (nodes : List Node) (fv v : Str)
    (rels : List Rel) (jc : List (List Frag) × List (List Frag))
    (h : buildJoins nodes fv rels = some jc) :
    jc.1.count (nodeJoinChunk v) =
      (if v = fv then 0 else (rels.filter (fun r => r.target == v)).length) ∧
    jc.2 = rels.flatMap (fun r =>
      if r.target = fv then []
      else
        match lookupNode nodes r.target with
        | some tn => nodeConds tn
        | none => []) :=
  ⟨buildJoins_count_nodeJoin nodes fv v rels jc h,
   buildJoins_conds_eq nodes fv rels jc h⟩

/-- Witness for C4 at the double-target pattern. -/
theorem c4_witness :
    ((buildJoins (parsePattern gw 0 (matchClauseOf
        (str "MATCH (a)-[:R]->(b)-[:S]->(b) RETURN *"))).nodes (str "a")
        (parsePattern gw 0 (matchClauseOf
        (str "MATCH (a)-[:R]->(b)-[:S]->(b) RETURN *"))).rels).getD
        ([], [])).1.count (nodeJoinChunk (str "b")) = 2 ∧
    ((buildJoins (parsePattern gw 0 (matchClauseOf
        (str "MATCH (a)-[:R]->(b)-[:S]->(b) RETURN *"))).nodes (str "a")
        (parsePattern gw 0 (matchClauseOf
        (str "MATCH (a)-[:R]->(b)-[:S]->(b) RETURN *"))).rels).getD
        ([], [])).1.count (nodeJoinChunk (str "a")) = 0 := by
  have h := c4_target_join_per_relationship
    (parsePattern gw 0 (matchClauseOf
        (str "MATCH (a)-[:R]->(b)-[:S]->(b) RETURN *"))).nodes (str "a")
    (str "b")
    (parsePattern gw 0 (matchClauseOf
        (str "MATCH (a)-[:R]->(b)-[:S]->(b) RETURN *"))).rels _ rfl
  have h2 := c4_target_join_per_relationship
    (parsePattern gw 0 (matchClauseOf
        (str "MATCH (a)-[:R]->(b)-[:S]->(b) RETURN *"))).nodes (str "a")
    (str "a")
    (parsePattern gw 0 (matchClauseOf
        (str "MATCH (a)-[:R]->(b)-[:S]->(b) RETURN *"))).rels _ rfl
  exact ⟨h.1.trans (by decide), h2.1.trans (by decide)⟩

/-! ## C6: RETURN projection -/

/-- C6: RETURN is split on commas; a `variable.property` item over a pattern
node emits the JSON-property-read run with the property name as a literal; a
bare item equal to a node variable emits that alias's all-columns run; `*`
emits all-columns runs for every pattern node in insertion order; and when the
recognized item list is empty the projection falls back to all columns of
every pattern node. -/
theorem c6_return_projection (nodes : List Node) (rc : Str) :
    (∀ piece ∈ splitOnComma rc, ∀ v p : Str,
      (trim piece).contains '.' = true →
      propMatchAt (trim piece) = some (v, p) →
      hasVar nodes v = true →
      perItem nodes (trim piece) =
        [[Frag.ident v, Frag.raw (str ".properties->>"), Frag.lit p]]) ∧
    (∀ piece ∈ splitOnComma rc,
      (trim piece).contains '.' = false →
      hasVar nodes (trim piece) = true →
      perItem nodes (trim piece) =
        [[Frag.ident (trim piece), Frag.raw (str ".*")]]) ∧
    (∀ piece ∈ splitOnComma rc,
      (trim piece).contains '.' = false →
      hasVar nodes (trim piece) = false →
      trim piece = str "*" →
      perItem nodes (trim piece) = allColsItems nodes) ∧
    ((splitOnComma rc).flatMap (fun pc => perItem nodes (trim pc)) = [] →
      selectSection nodes rc =
        Frag.raw (str "SELECT ") :: joinComposed (str ", ") (allColsItems nodes)) ∧
    selectSection nodes rc = Frag.raw (str "SELECT ") ::
      joinComposed (str ", ")
        (if (splitOnComma rc).flatMap (fun pc => perItem nodes (trim pc)) = []
         then allColsItems nodes
         else (splitOnComma rc).flatMap (fun pc => perItem nodes (trim pc))) := by
  refine ⟨?_, ?_, ?_, ?_, ?_⟩
  · intro piece _ v p hdot hpm hhv
    have hdot2 : '.' ∈ trim piece := by simpa using hdot
    simp [perItem, hdot2, hpm, hhv]
  · intro piece _ hdot hhv
    have hdot2 : '.' ∉ trim piece := by simpa using hdot
    simp [perItem, hdot2, hhv]
  · intro piece _ hdot hhv hstar
    rw [hstar] at hhv
    have hdot3 : '.' ∉ str "*" := by decide
    simp [perItem, hstar, hdot3, hhv, allColsItems]
  · intro hemp
    simp [selectSection, hemp]
  · by_cases hemp :
      (splitOnComma rc).flatMap (fun pc => perItem nodes (trim pc)) = []
    · simp [selectSection, hemp]
    · simp [selectSection, hemp]

/-- Witness for C6 on one node `p` and RETURN text `p.name, p, *, junk`. -/
theorem c6_witness :
    perItem [⟨str "p", none, []⟩] (trim (str "p.name")) =
      [[Frag.ident (str "p"), Frag.raw (str ".properties->>"),
        Frag.lit (str "name")]] ∧
    perItem [⟨str "p", none, []⟩] (trim (str " p")) =
      [[Frag.ident (str "p"), Frag.raw (str ".*")]] ∧
    perItem [⟨str "p", none, []⟩] (trim (str " *")) =
      allColsItems [⟨str "p", none, []⟩] ∧
    selectSection [⟨str "p", none, []⟩] (str "junk") =
      Frag.raw (str "SELECT ") ::
        joinComposed (str ", ") (allColsItems [⟨str "p", none, []⟩]) := by
  have h := c6_return_projection [⟨str "p", none, []⟩] (str "p.name, p, *")
  have hj := c6_return_projection [⟨str "p", none, []⟩] (str "junk")
  refine ⟨?_, ?_, ?_, ?_⟩
  · exact h.1 (str "p.name") (by decide) (str "p") (str "name")
      (by decide) (by decide) (by decide)
  · exact h.2.1 (str " p") (by decide) (by decide) (by decide)
  · exact h.2.2.1 (str " *") (by decide) (by decide) (by decide) (by decide)
  · exact hj.2.2.2.1 (by decide)

/-! ## Raw/identifier fragment characterization (C3, C5, C9) -/

/-- The operator shapes `[=><!]=?` can produce. -/
def opShape (s : Str) : Prop := ∃ c ∈ opClass, s = [c] ∨ s = [c, '=']

def selRaws : List Str := [str "SELECT ", str ", ", str ".properties->>", str ".*"]

def joinRaws : List Str :=
  [str " JOIN pgraf.edges AS ", str " ON ", str "(", str ".id = ",
   str ".source AND", str ".target AND", str " ", str ".label = ",
   str " AND", str ".target = ", str ".source = ", str ".id)",
   str " JOIN pgraf.nodes AS ", str " ON TRUE"]

def condRaws : List Str := [str ".type = ", str ".properties->>", str "="]

/-- Every fixed keyword string the generator can emit as a raw fragment. -/
def fixedRaws : List Str :=
  selRaws ++ [str " FROM pgraf.nodes AS "] ++ joinRaws ++ condRaws ++
    [str " WHERE ", str " AND ", str "(", str ") ", str " "]

theorem mem_intersperse {α : Type} {a b : α} {l : List α}
    (h : a ∈ l.intersperse b) : a = b ∨ a ∈ l := by
  induction l with
  | nil => cases h
  | cons hd tl ih =>
    cases tl with
    | nil =>
      simp at h
      exact Or.inr (by simp [h])
    | cons hd2 tl2 =>
      rw [List.intersperse_cons_cons] at h
      rcases List.mem_cons.mp h with h | h
      · exact Or.inr (h ▸ List.mem_cons_self _ _)
      · rcases List.mem_cons.mp h with h | h
        · exact Or.inl h
        · rcases ih h with h1 | h1
          · exact Or.inl h1
          · exact Or.inr (List.mem_cons_of_mem _ h1)

theorem mem_intersperse_of_mem {α : Type} (b : α) {a : α} {l : List α}
    (h : a ∈ l) : a ∈ l.intersperse b := by
  induction l with
  | nil => cases h
  | cons hd tl ih =>
    cases tl with
    | nil => simpa using h
    | cons hd2 tl2 =>
      rw [List.intersperse_cons_cons]
      rcases List.mem_cons.mp h with h1 | h1
      · rw [h1]
        exact List.mem_cons_self _ _
      · exact List.mem_cons_of_mem _ (List.mem_cons_of_mem _ (ih h1))

theorem mem_joinComposed {sep : Str} {xs : List (List Frag)} {f : Frag}
    (h : f ∈ joinComposed sep xs) : f = Frag.raw sep ∨ ∃ x ∈ xs, f ∈ x := by
  unfold joinComposed at h
  rw [List.mem_flatten] at h
  obtain ⟨y, hy, hfy⟩ := h
  rcases mem_intersperse hy with h1 | h1
  · subst h1
    exact Or.inl (List.mem_singleton.mp hfy)
  · exact Or.inr ⟨y, h1, hfy⟩

theorem hasVar_of_mem {nodes : List Node} {nd : Node} (h : nd ∈ nodes) :
    hasVar nodes nd.var = true := by
  unfold hasVar
  rw [List.any_eq_true]
  exact ⟨nd, h, by simp⟩

theorem lookupNode_mem {nodes : List Node} {v : Str} {tn : Node}
    (h : lookupNode nodes v = some tn) : tn ∈ nodes :=
  List.mem_of_find?_eq_some h

theorem allColsItems_raws {nodes : List Node} {x : List Frag} {s : Str}
    (hx : x ∈ allColsItems nodes) (hs : Frag.raw s ∈ x) : s = str ".*" := by
  unfold allColsItems at hx
  rw [List.mem_map] at hx
  obtain ⟨nd, _, hnd⟩ := hx
  subst hnd
  rcases List.mem_cons.mp hs with h | h
  · cases h
  · rcases List.mem_singleton.mp h with h1
    cases h1
    rfl

theorem allColsItems_idents {nodes : List Node} {x : List Frag} {s : Str}
    (hx : x ∈ allColsItems nodes) (hs : Frag.ident s ∈ x) :
    hasVar nodes s = true := by
  unfold allColsItems at hx
  rw [List.mem_map] at hx
  obtain ⟨nd, hmem, hnd⟩ := hx
  subst hnd
  rcases List.mem_cons.mp hs with h | h
  · cases h
    exact hasVar_of_mem hmem
  · rcases List.mem_singleton.mp h with h1
    cases h1

theorem perItem_raws {nodes : List Node} {item : Str} {x : List Frag} {s : Str}
    (hx : x ∈ perItem nodes item) (hs : Frag.raw s ∈ x) :
    s = str ".properties->>" ∨ s = str ".*" := by
  unfold perItem at hx
  split at hx
  · split at hx
    · split at hx
      · rcases List.mem_singleton.mp hx with h1
        subst h1
        rcases List.mem_cons.mp hs with h | h
        · cases h
        · rcases List.mem_cons.mp h with h | h
          · cases h
            exact Or.inl rfl
          · rcases List.mem_singleton.mp h with h1
            cases h1
      · cases hx
    · cases hx
  · split at hx
    · rcases List.mem_singleton.mp hx with h1
      subst h1
      rcases List.mem_cons.mp hs with h | h
      · cases h
      · rcases List.mem_singleton.mp h with h1
        cases h1
        exact Or.inr rfl
    · split at hx
      · exact Or.inr (allColsItems_raws hx hs)
      · cases hx

theorem perItem_idents {nodes : List Node} {item : Str} {x : List Frag} {s : Str}
    (hx : x ∈ perItem nodes item) (hs : Frag.ident s ∈ x) :
    hasVar nodes s = true := by
  unfold perItem at hx
  split at hx
  · split at hx
    · split at hx
      · rcases List.mem_singleton.mp hx with h1
        subst h1
        rcases List.mem_cons.mp hs with h | h
        · cases h
          assumption
        · rcases List.mem_cons.mp h with h | h
          · cases h
          · rcases List.mem_singleton.mp h with h1
            cases h1
      · cases hx
    · cases hx
  · split at hx
    · rcases List.mem_singleton.mp hx with h1
      subst h1
      rcases List.mem_cons.mp hs with h | h
      · cases h
        assumption
      · rcases List.mem_singleton.mp h with h1
        cases h1
    · split at hx
      · exact allColsItems_idents hx hs
      · cases hx

theorem selectSection_raws {nodes : List Node} {rc : Str} {s : Str}
    (hs : Frag.raw s ∈ selectSection nodes rc) : s ∈ selRaws := by
  unfold selectSection at hs
  split at hs <;>
  · rcases List.mem_cons.mp hs with h | h
    · cases h
      simp [selRaws]
    · rcases mem_joinComposed h with h1 | ⟨x, hx, hfx⟩
      · cases h1
        simp [selRaws]
      · first
        | (have h9 := allColsItems_raws hx hfx
           simp [h9, selRaws])
        | (rcases List.mem_flatMap.mp hx with ⟨pc, _, hpi⟩
           rcases perItem_raws hpi hfx with h2 | h2 <;> simp [h2, selRaws])

theorem selectSection_idents {nodes : List Node} {rc : Str} {s : Str}
    (hs : Frag.ident s ∈ selectSection nodes rc) : hasVar nodes s = true := by
  unfold selectSection at hs
  split at hs <;>
  · rcases List.mem_cons.mp hs with h | h
    · cases h
    · rcases mem_joinComposed h with h1 | ⟨x, hx, hfx⟩
      · cases h1
      · first
        | exact allColsItems_idents hx hfx
        | (rcases List.mem_flatMap.mp hx with ⟨pc, _, hpi⟩
           exact perItem_idents hpi hfx)

theorem nodeConds_raws {nd : Node} {x : List Frag} {s : Str}
    (hx : x ∈ nodeConds nd) (hs : Frag.raw s ∈ x) : s ∈ condRaws := by
  unfold nodeConds at hx
  rcases List.mem_append.mp hx with h | h
  · split at h
    · rcases List.mem_singleton.mp h with h1
      subst h1
      rcases List.mem_cons.mp hs with h2 | h2
      · cases h2
      · rcases List.mem_cons.mp h2 with h2 | h2
        · cases h2
          simp [condRaws]
        · rcases List.mem_singleton.mp h2 with h3
          cases h3
    · cases h
  · rw [List.mem_map] at h
    obtain ⟨kv, _, hkv⟩ := h
    subst hkv
    rcases List.mem_cons.mp hs with h2 | h2
    · cases h2
    · rcases List.mem_cons.mp h2 with h2 | h2
      · cases h2
        simp [condRaws]
      · rcases List.mem_cons.mp h2 with h2 | h2
        · cases h2
        · rcases List.mem_cons.mp h2 with h2 | h2
          · cases h2
            simp [condRaws]
          · rcases List.mem_singleton.mp h2 with h3
            cases h3

theorem nodeConds_idents {nd : Node} {x : List Frag} {s : Str}
    (hx : x ∈ nodeConds nd) (hs : Frag.ident s ∈ x) : s = nd.var := by
  unfold nodeConds at hx
  rcases List.mem_append.mp hx with h | h
  · split at h
    · rcases List.mem_singleton.mp h with h1
      subst h1
      rcases List.mem_cons.mp hs with h2 | h2
      · cases h2
        rfl
      · rcases List.mem_cons.mp h2 with h2 | h2
        · cases h2
        · rcases List.mem_singleton.mp h2 with h3
          cases h3
    · cases h
  · rw [List.mem_map] at h
    obtain ⟨kv, _, hkv⟩ := h
    subst hkv
    rcases List.mem_cons.mp hs with h2 | h2
    · cases h2
      rfl
    · rcases List.mem_cons.mp h2 with h2 | h2
      · cases h2
      · rcases List.mem_cons.mp h2 with h2 | h2
        · cases h2
        · rcases List.mem_cons.mp h2 with h2 | h2
          · cases h2
          · rcases List.mem_singleton.mp h2 with h3
            cases h3

theorem matchCmpAt_opShape {cs : Str} {v p o val : Str}
    (h : matchCmpAt cs = some (v, p, o, val)) : opShape o := by
  unfold matchCmpAt at h
  split at h
  · cases h
  · split at h
    · split at h
      · cases h
      · split at h
        · split at h
          · split at h
            · split at h
              · cases h
                exact ⟨_, by assumption, Or.inl rfl⟩
              · cases h
                exact ⟨_, by assumption, Or.inr rfl⟩
            · split at h
              · cases h
              · cases h
                exact ⟨_, by assumption, Or.inl rfl⟩
          · cases h
        · cases h
    · cases h

theorem findCmp_opShape : ∀ {cs : Str} {v p o val : Str},
    findCmp cs = some (v, p, o, val) → opShape o := by
  intro cs
  induction cs with
  | nil =>
    intro v p o val h
    cases h
  | cons c rest ih =>
    intro v p o val h
    unfold findCmp at h
    cases hm : matchCmpAt (c :: rest) with
    | some r =>
      rw [hm] at h
      cases h
      exact matchCmpAt_opShape hm
    | none =>
      rw [hm] at h
      exact ih h

theorem whereConds_shape (nodes : List Node) (wc : Str) :
    whereConds nodes wc = [] ∨
    ∃ v p o val, findCmp wc = some (v, p, o, val) ∧ hasVar nodes v = true ∧
      whereConds nodes wc =
        [[Frag.raw (str "("), Frag.ident v, Frag.raw (str ".properties->>"),
          Frag.lit p, Frag.raw (str ") "), Frag.raw o, Frag.raw (str " "),
          Frag.lit (stripQuotes val)]] := by
  by_cases hwc : wc = []
  · exact Or.inl (by simp [whereConds, hwc])
  · cases hf : findCmp wc with
    | none => exact Or.inl (by simp [whereConds, hwc, hf])
    | some r =>
      obtain ⟨v, p, o, val⟩ := r
      by_cases hv : hasVar nodes v = true
      · exact Or.inr ⟨v, p, o, val, rfl, hv, by simp [whereConds, hwc, hf, hv]⟩
      · exact Or.inl (by simp [whereConds, hwc, hf, hv])

/-- Raw fragments inside the join clauses are fixed keyword text. -/
theorem buildJoins_raws (nodes : List Node) (fv : Str) :
    ∀ (rels : List Rel) (jc : List (List Frag) × List (List Frag)),
      buildJoins nodes fv rels = some jc →
      ∀ x ∈ jc.1, ∀ s : Str, Frag.raw s ∈ x → s ∈ joinRaws := by
  intro rels
  induction rels with
  | nil =>
    intro jc hjc x hx
    have h0 : jc = ([], []) := by simpa [buildJoins] using hjc.symm
    subst h0
    cases hx
  | cons r rest ih =>
    intro jc hjc x hx s hs
    obtain ⟨jc0, hrest, mid, hshape, hmid⟩ :=
      buildJoins_some_shape nodes fv r rest jc hjc
    rw [hshape] at hx
    rcases List.mem_append.mp hx with hx | hx
    swap
    · exact ih jc0 hrest x hx s hs
    rcases List.mem_append.mp hx with hx | hx
    swap
    · split at hx
      · cases hx
      · rcases List.mem_singleton.mp hx with h1
        subst h1
        unfold nodeJoinChunk at hs
        rcases List.mem_cons.mp hs with h | h
        · cases h
          simp [joinRaws]
        · rcases List.mem_cons.mp h with h | h
          · cases h
          · rcases List.mem_singleton.mp h with h1
            cases h1
            simp [joinRaws]
    rcases List.mem_append.mp hx with hx | hx
    swap
    · rcases List.mem_singleton.mp hx with h1
      subst h1
      unfold edgeClose at hs
      split at hs <;>
      · rcases List.mem_cons.mp hs with h | h
        · cases h
          simp [joinRaws]
        · rcases List.mem_cons.mp h with h | h
          · cases h
          · rcases List.mem_cons.mp h with h | h
            · cases h
              simp [joinRaws]
            · rcases List.mem_cons.mp h with h | h
              · cases h
              · rcases List.mem_singleton.mp h with h1
                cases h1
                simp [joinRaws]
    rcases List.mem_append.mp hx with hx | hx
    swap
    · obtain ⟨t, hxt⟩ := hmid x hx
      subst hxt
      rcases List.mem_cons.mp hs with h | h
      · cases h
        simp [joinRaws]
      · rcases List.mem_cons.mp h with h | h
        · cases h
        · rcases List.mem_cons.mp h with h | h
          · cases h
            simp [joinRaws]
          · rcases List.mem_cons.mp h with h | h
            · cases h
            · rcases List.mem_singleton.mp h with h1
              cases h1
              simp [joinRaws]
    rcases List.mem_cons.mp hx with hx | hx
    · subst hx
      rcases List.mem_cons.mp hs with h | h
      · cases h
        simp [joinRaws]
      · rcases List.mem_cons.mp h with h | h
        · cases h
        · rcases List.mem_singleton.mp h with h1
          cases h1
          simp [joinRaws]
    · rcases List.mem_singleton.mp hx with h1
      subst h1
      unfold edgeOpen at hs
      split at hs <;>
      · rcases List.mem_cons.mp hs with h | h
        · cases h
          simp [joinRaws]
        · rcases List.mem_cons.mp h with h | h
          · cases h
          · rcases List.mem_cons.mp h with h | h
            · cases h
              simp [joinRaws]
            · rcases List.mem_cons.mp h with h | h
              · cases h
              · rcases List.mem_singleton.mp h with h1
                cases h1
                simp [joinRaws]

/-- Identifier fragments inside the join clauses are the edge alias or the
endpoints of a listed relationship. -/
theorem buildJoins_idents (nodes : List Node) (fv : Str) :
    ∀ (rels : List Rel) (jc : List (List Frag) × List (List Frag)),
      buildJoins nodes fv rels = some jc →
      ∀ x ∈ jc.1, ∀ s : Str, Frag.ident s ∈ x →
        ∃ r ∈ rels, s = relAlias r ∨ s = r.source ∨ s = r.target := by
  intro rels
  induction rels with
  | nil =>
    intro jc hjc x hx
    have h0 : jc = ([], []) := by simpa [buildJoins] using hjc.symm
    subst h0
    cases hx
  | cons r rest ih =>
    intro jc hjc x hx s hs
    obtain ⟨jc0, hrest, mid, hshape, hmid⟩ :=
      buildJoins_some_shape nodes fv r rest jc hjc
    rw [hshape] at hx
    rcases List.mem_append.mp hx with hx | hx
    swap
    · obtain ⟨r2, hr2, hd⟩ := ih jc0 hrest x hx s hs
      exact ⟨r2, List.mem_cons_of_mem _ hr2, hd⟩
    have hr0 : r ∈ r :: rest := List.mem_cons_self r rest
    rcases List.mem_append.mp hx with hx | hx
    swap
    · split at hx
      · cases hx
      · rcases List.mem_singleton.mp hx with h1
        subst h1
        unfold nodeJoinChunk at hs
        rcases List.mem_cons.mp hs with h | h
        · cases h
        · rcases List.mem_cons.mp h with h | h
          · cases h
            exact ⟨r, hr0, Or.inr (Or.inr rfl)⟩
          · rcases List.mem_singleton.mp h with h1
            cases h1
    rcases List.mem_append.mp hx with hx | hx
    swap
    · rcases List.mem_singleton.mp hx with h1
      subst h1
      unfold edgeClose at hs
      split at hs <;>
      · rcases List.mem_cons.mp hs with h | h
        · cases h
        · rcases List.mem_cons.mp h with h | h
          · cases h
            exact ⟨r, hr0, Or.inl rfl⟩
          · rcases List.mem_cons.mp h with h | h
            · cases h
            · rcases List.mem_cons.mp h with h | h
              · cases h
                exact ⟨r, hr0, Or.inr (Or.inr rfl)⟩
              · rcases List.mem_singleton.mp h with h1
                cases h1
    rcases List.mem_append.mp hx with hx | hx
    swap
    · obtain ⟨t, hxt⟩ := hmid x hx
      subst hxt
      rcases List.mem_cons.mp hs with h | h
      · cases h
      · rcases List.mem_cons.mp h with h | h
        · cases h
          exact ⟨r, hr0, Or.inl rfl⟩
        · rcases List.mem_cons.mp h with h | h
          · cases h
          · rcases List.mem_cons.mp h with h | h
            · cases h
            · rcases List.mem_singleton.mp h with h1
              cases h1
    rcases List.mem_cons.mp hx with hx | hx
    · subst hx
      rcases List.mem_cons.mp hs with h | h
      · cases h
      · rcases List.mem_cons.mp h with h | h
        · cases h
          exact ⟨r, hr0, Or.inl rfl⟩
        · rcases List.mem_singleton.mp h with h1
          cases h1
    · rcases List.mem_singleton.mp hx with h1
      subst h1
      unfold edgeOpen at hs
      split at hs <;>
      · rcases List.mem_cons.mp hs with h | h
        · cases h
        · rcases List.mem_cons.mp h with h | h
          · cases h
            exact ⟨r, hr0, Or.inr (Or.inl rfl)⟩
          · rcases List.mem_cons.mp h with h | h
            · cases h
            · rcases List.mem_cons.mp h with h | h
              · cases h
                exact ⟨r, hr0, Or.inl rfl⟩
              · rcases List.mem_singleton.mp h with h1
                cases h1

theorem selRaws_sub : ∀ s ∈ selRaws, s ∈ fixedRaws := by decide

theorem joinRaws_sub : ∀ s ∈ joinRaws, s ∈ fixedRaws := by decide

theorem condRaws_sub : ∀ s ∈ condRaws, s ∈ fixedRaws := by decide

theorem buildJoins_conds_elem (nodes : List Node) (fv : Str) (rels : List Rel)
    (jc : List (List Frag) × List (List Frag))
    (h : buildJoins nodes fv rels = some jc) {x : List Frag} (hx : x ∈ jc.2) :
    ∃ tn ∈ nodes, x ∈ nodeConds tn := by
  rw [buildJoins_conds_eq nodes fv rels jc h] at hx
  rw [List.mem_flatMap] at hx
  obtain ⟨r, _, hxr⟩ := hx
  split at hxr
  · cases hxr
  · split at hxr
    · rename_i tn hlk
      exact ⟨tn, lookupNode_mem hlk, hxr⟩
    · cases hxr

/-- Every raw fragment of a generated query is fixed keyword text, except
possibly the operator extracted from the WHERE clause by the comparison
regex. -/
theorem generateSql_raws (nodes : List Node) (rels : List Rel) (wc rc : Str)
    (out : List Frag) (h : generateSql nodes rels wc rc = some out) :
    ∀ s : Str, Frag.raw s ∈ out →
      s ∈ fixedRaws ∨ ∃ v p val, findCmp wc = some (v, p, s, val) := by
  cases nodes with
  | nil => cases h
  | cons first tl =>
    simp only [generateSql] at h
    cases hbj : buildJoins (first :: tl) first.var rels with
    | none => rw [hbj] at h; cases h
    | some jc =>
      rw [hbj] at h
      simp only [Option.some.injEq] at h
      subst h
      intro s hs
      rcases List.mem_append.mp hs with hs | hs
      swap
      · split at hs
        · cases hs
        · rcases List.mem_cons.mp hs with h1 | h1
          · cases h1
            exact Or.inl (by decide)
          · rcases mem_joinComposed h1 with h2 | ⟨x, hx, hfx⟩
            · cases h2
              exact Or.inl (by decide)
            · rcases List.mem_append.mp hx with hx | hx
              · rcases List.mem_append.mp hx with hx | hx
                · exact Or.inl (condRaws_sub _ (nodeConds_raws hx hfx))
                · obtain ⟨tn, _, hxc⟩ :=
                    buildJoins_conds_elem _ _ _ _ hbj hx
                  exact Or.inl (condRaws_sub _ (nodeConds_raws hxc hfx))
              · rcases whereConds_shape (first :: tl) wc with hsh | hsh
                · rw [hsh] at hx
                  cases hx
                · obtain ⟨v, p, o, val, hf, hv, heq⟩ := hsh
                  rw [heq] at hx
                  rcases List.mem_singleton.mp hx with h1
                  subst h1
                  rcases List.mem_cons.mp hfx with h2 | h2
                  · cases h2
                    exact Or.inl (by decide)
                  · rcases List.mem_cons.mp h2 with h2 | h2
                    · cases h2
                    · rcases List.mem_cons.mp h2 with h2 | h2
                      · cases h2
                        exact Or.inl (by decide)
                      · rcases List.mem_cons.mp h2 with h2 | h2
                        · cases h2
                        · rcases List.mem_cons.mp h2 with h2 | h2
                          · cases h2
                            exact Or.inl (by decide)
                          · rcases List.mem_cons.mp h2 with h2 | h2
                            · cases h2
                              exact Or.inr ⟨v, p, val, hf⟩
                            · rcases List.mem_cons.mp h2 with h2 | h2
                              · cases h2
                                exact Or.inl (by decide)
                              · rcases List.mem_singleton.mp h2 with h3
                                cases h3
      rcases List.mem_append.mp hs with hs | hs
      swap
      · rw [List.mem_flatten] at hs
        obtain ⟨x, hx, hfx⟩ := hs
        exact Or.inl (joinRaws_sub _ (buildJoins_raws _ _ _ _ hbj x hx s hfx))
      rcases List.mem_append.mp hs with hs | hs
      · exact Or.inl (selRaws_sub _ (selectSection_raws hs))
      · rcases List.mem_cons.mp hs with h1 | h1
        · cases h1
          exact Or.inl (by decide)
        · rcases List.mem_singleton.mp h1 with h2
          cases h2

/-- Every identifier fragment of a generated query is a pattern-node
variable or the alias of a listed relationship. -/
theorem generateSql_idents (nodes : List Node) (rels : List Rel) (wc rc : Str)
    (out : List Frag)
    (hsrc : ∀ r ∈ rels, hasVar nodes r.source = true)
    (htgt : ∀ r ∈ rels, hasVar nodes r.target = true)
    (h : generateSql nodes rels wc rc = some out) :
    ∀ s : Str, Frag.ident s ∈ out →
      hasVar nodes s = true ∨ ∃ r ∈ rels, s = relAlias r := by
  cases nodes with
  | nil => cases h
  | cons first tl =>
    simp only [generateSql] at h
    cases hbj : buildJoins (first :: tl) first.var rels with
    | none => rw [hbj] at h; cases h
    | some jc =>
      rw [hbj] at h
      simp only [Option.some.injEq] at h
      subst h
      intro s hs
      rcases List.mem_append.mp hs with hs | hs
      swap
      · split at hs
        · cases hs
        · rcases List.mem_cons.mp hs with h1 | h1
          · cases h1
          · rcases mem_joinComposed h1 with h2 | ⟨x, hx, hfx⟩
            · cases h2
            · rcases List.mem_append.mp hx with hx | hx
              · rcases List.mem_append.mp hx with hx | hx
                · have := nodeConds_idents hx hfx
                  subst this
                  exact Or.inl (hasVar_of_mem (List.mem_cons_self first tl))
                · obtain ⟨tn, htn, hxc⟩ :=
                    buildJoins_conds_elem _ _ _ _ hbj hx
                  have := nodeConds_idents hxc hfx
                  subst this
                  exact Or.inl (hasVar_of_mem htn)
              · rcases whereConds_shape (first :: tl) wc with hsh | hsh
                · rw [hsh] at hx
                  cases hx
                · obtain ⟨v, p, o, val, hf, hv, heq⟩ := hsh
                  rw [heq] at hx
                  rcases List.mem_singleton.mp hx with h1
                  subst h1
                  rcases List.mem_cons.mp hfx with h2 | h2
                  · cases h2
                  · rcases List.mem_cons.mp h2 with h2 | h2
                    · cases h2
                      exact Or.inl hv
                    · rcases List.mem_cons.mp h2 with h2 | h2
                      · cases h2
                      · rcases List.mem_cons.mp h2 with h2 | h2
                        · cases h2
                        · rcases List.mem_cons.mp h2 with h2 | h2
                          · cases h2
                          · rcases List.mem_cons.mp h2 with h2 | h2
                            · cases h2
                            · rcases List.mem_cons.mp h2 with h2 | h2
                              · cases h2
                              · rcases List.mem_singleton.mp h2 with h3
                                cases h3
      rcases List.mem_append.mp hs with hs | hs
      swap
      · rw [List.mem_flatten] at hs
        obtain ⟨x, hx, hfx⟩ := hs
        obtain ⟨r, hr, hd⟩ := buildJoins_idents _ _ _ _ hbj x hx s hfx
        rcases hd with hd | hd | hd
        · exact Or.inr ⟨r, hr, hd⟩
        · subst hd
          exact Or.inl (hsrc r hr)
        · subst hd
          exact Or.inl (htgt r hr)
      rcases List.mem_append.mp hs with hs | hs
      · exact Or.inl (selectSection_idents hs)
      · rcases List.mem_cons.mp hs with h1 | h1
        · cases h1
        · rcases List.mem_singleton.mp h1 with h2
          cases h2
          exact Or.inl (hasVar_of_mem (List.mem_cons_self first tl))

/-- Every relationship source recorded by the pattern loop has an entry in
the node mapping (the current node was inserted when it was parsed). -/
theorem patGo_sources (g : Nat → Str) :
    ∀ (segs : List Str) (cur : Option Node) (nodes : List Node)
      (rels : List Rel) (n : Nat),
      (∀ nd : Node, cur = some nd → hasVar nodes nd.var = true) →
      (∀ r ∈ rels, hasVar nodes r.source = true) →
      ∀ r ∈ (patGo g segs cur nodes rels n).rels,
        hasVar (patGo g segs cur nodes rels n).nodes r.source = true := by
  intro segs
  induction segs with
  | nil =>
    intro cur nodes rels n _ h r hr
    exact h r hr
  | cons seg rest ih =>
    intro cur nodes rels n hcur h
    simp only [patGo]
    split
    · exact ih _ _ _ _ hcur h
    · split
      · split
        · exact ih _ _ _ _ hcur h
        · split
          · split
            · refine ih _ _ _ _ ?_ ?_
              · intro nd hnd
                exact hasVar_insertNode_of _ (hcur nd hnd)
              · intro r hr
                rcases List.mem_append.mp hr with hr1 | hr1
                · exact hasVar_insertNode_of _ (h r hr1)
                · have hre := List.mem_singleton.mp hr1
                  subst hre
                  exact hasVar_insertNode_of _ (hcur _ rfl)
            · exact ih _ _ _ _ hcur h
          · exact ih _ _ _ _ hcur h
      · split
        · refine ih _ _ _ _ ?_ ?_
          · intro nd hnd
            cases hnd
            exact hasVar_insertNode_self _ _
          · intro r hr
            exact hasVar_insertNode_of _ (h r hr)
        · exact ih _ _ _ _ hcur h

theorem parse_ok_inv (g : Nat → Str) (q : Str) (out : List Frag)
    (h : parse g q = .ok out) :
    matchClauseOf q ≠ [] ∧ returnClauseOf q ≠ [] ∧
    generateSql (parsePattern g 0 (matchClauseOf q)).nodes
      (parsePattern g 0 (matchClauseOf q)).rels
      (whereClauseOf q) (returnClauseOf q) = some out := by
  unfold parse at h
  by_cases hmc : matchClauseOf q = []
  · rw [if_pos hmc] at h
    cases h
  · rw [if_neg hmc] at h
    by_cases hrc : returnClauseOf q = []
    · rw [if_pos hrc] at h
      cases h
    · rw [if_neg hrc] at h
      cases hgen : generateSql (parsePattern g 0 (matchClauseOf q)).nodes
          (parsePattern g 0 (matchClauseOf q)).rels
          (whereClauseOf q) (returnClauseOf q) with
      | none =>
        rw [hgen] at h
        cases h
      | some o =>
        rw [hgen] at h
        cases h
        exact ⟨hmc, hrc, rfl⟩

/-! ## C9: the operator is the only user-derived raw text -/

/-- C9: in every successful translation, each raw fragment is either fixed
keyword text or exactly the operator extracted by the WHERE comparison regex,
whose shape is `[=><!]=?`; in particular `==` and a bare `!` are accepted and
emitted verbatim, but no longer user-controlled string reaches the output
unescaped through this path. -/
theorem c9_operator_only_raw_text :
    (∀ (g : Nat → Str) (q : Str) (out : List Frag), parse g q = .ok out →
      ∀ s : Str, Frag.raw s ∈ out →
        s ∈ fixedRaws ∨
        (opShape s ∧
         ∃ v p val, findCmp (whereClauseOf q) = some (v, p, s, val))) ∧
    Frag.raw (str "==") ∈
      ((parse gw (str "MATCH (p) WHERE p.age == 30 RETURN p")).toOption.getD []) ∧
    Frag.raw (str "!") ∈
      ((parse gw (str "MATCH (p) WHERE p.age ! 30 RETURN p")).toOption.getD []) ∧
    str "==" ∉ fixedRaws ∧ str "!" ∉ fixedRaws := by
  refine ⟨?_, by decide, by decide, by decide, by decide⟩
  intro g q out hout s hs
  obtain ⟨_, _, hgen⟩ := parse_ok_inv g q out hout
  rcases generateSql_raws _ _ _ _ _ hgen s hs with h1 | ⟨v, p, val, hf⟩
  · exact Or.inl h1
  · exact Or.inr ⟨findCmp_opShape hf, v, p, val, hf⟩

/-- Witness for C9 at the `==` query. -/
theorem c9_witness : str "==" ∈ fixedRaws ∨ opShape (str "==") :=
  (c9_operator_only_raw_text.1 gw (str "MATCH (p) WHERE p.age == 30 RETURN p")
    ((parse gw (str "MATCH (p) WHERE p.age == 30 RETURN p")).toOption.getD [])
    rfl (str "==") (by decide)).imp (fun h => h) (fun h => h.1)

/-! ## C3: identifier/literal discipline and the escaped literal -/

def apos : Char := Char.ofNat 39

def obrienLit : Str := str "O" ++ [apos] ++ str "Brien"

def obrienQuery : Str :=
  str "MATCH (p \x7bname: \"" ++ obrienLit ++ str "\"\x7d) RETURN p"

def obrienOut : List Frag := (parse gw obrienQuery).toOption.getD []

/-- C3: in every successful translation, raw fragments carry only fixed
keyword text or a two-character operator shape — never a variable, label,
property name or property value — and identifier fragments carry only
pattern-node variables or relationship aliases (explicit or derived
`r_<source>_<target>`).  For the property `{name: "O'Brien"}` the generated
equality condition carries the value as the escaped-literal fragment
`O'Brien`, neither truncated nor unescaped. -/
theorem c3_injection_discipline :
    (∀ (g : Nat → Str) (q : Str) (out : List Frag), parse g q = .ok out →
      (∀ s : Str, Frag.raw s ∈ out → s ∈ fixedRaws ∨ opShape s) ∧
      (∀ s : Str, Frag.ident s ∈ out →
        hasVar (parsePattern g 0 (matchClauseOf q)).nodes s = true ∨
        ∃ r ∈ (parsePattern g 0 (matchClauseOf q)).rels, s = relAlias r)) ∧
    parse gw obrienQuery = .ok obrienOut ∧
    [Frag.ident (str "p"), Frag.raw (str ".properties->>"),
     Frag.lit (str "name"), Frag.raw (str "="), Frag.lit obrienLit] <:+:
      obrienOut ∧
    Frag.lit obrienLit ∈ obrienOut := by
  refine ⟨?_, rfl, by decide, by decide⟩
  intro g q out hout
  obtain ⟨_, _, hgen⟩ := parse_ok_inv g q out hout
  constructor
  · intro s hs
    rcases generateSql_raws _ _ _ _ _ hgen s hs with h1 | ⟨v, p, val, hf⟩
    · exact Or.inl h1
    · exact Or.inr (findCmp_opShape hf)
  · intro s hs
    have hsrc : ∀ r ∈ (parsePattern g 0 (matchClauseOf q)).rels,
        hasVar (parsePattern g 0 (matchClauseOf q)).nodes r.source = true :=
      patGo_sources g (splitSegs (matchClauseOf q)) none [] [] 0
        (fun nd hnd => by cases hnd) (by simp)
    have htgt : ∀ r ∈ (parsePattern g 0 (matchClauseOf q)).rels,
        hasVar (parsePattern g 0 (matchClauseOf q)).nodes r.target = true :=
      patGo_targets g (splitSegs (matchClauseOf q)) none [] [] 0 (by simp)
    exact generateSql_idents _ _ _ _ _ hsrc htgt hgen s hs

/-- Witness for C3: the `=` of the O'Brien property condition is fixed
keyword text, and the alias `p` is a pattern-node variable. -/
theorem c3_witness :
    (str "=" ∈ fixedRaws ∨ opShape (str "=")) ∧
    (hasVar (parsePattern gw 0 (matchClauseOf obrienQuery)).nodes (str "p") = true ∨
     ∃ r ∈ (parsePattern gw 0 (matchClauseOf obrienQuery)).rels,
       str "p" = relAlias r) := by
  have h := c3_injection_discipline.1 gw obrienQuery obrienOut rfl
  exact ⟨h.1 (str "=") (by decide), h.2 (str "p") (by decide)⟩

/-! ## C5: the WHERE clause contributes at most one comparison condition -/

/-- Does the WHERE text contribute a condition: the first regex comparison
exists and names a known pattern node. -/
def cmpAdded (nodes : List Node) (wc : Str) : Bool :=
  match findCmp wc with
  | some (v, _, _, _) => hasVar nodes v
  | none => false

theorem whereConds_empty_iff (nodes : List Node) (wc : Str) :
    whereConds nodes wc = [] ↔ cmpAdded nodes wc = false := by
  by_cases hwc : wc = []
  · subst hwc
    simp [whereConds, cmpAdded, findCmp]
  · cases hf : findCmp wc with
    | none => simp [whereConds, cmpAdded, hwc, hf]
    | some r =>
      obtain ⟨v, p, o, val⟩ := r
      by_cases hv : hasVar nodes v = true
      · simp [whereConds, cmpAdded, hwc, hf, hv]
      · simp [whereConds, cmpAdded, hwc, hf, hv]

theorem opShape_ne_rparen {o : Str} (h : opShape o) : o ≠ str ") " := by
  obtain ⟨c, hc, hd | hd⟩ := h
  · subst hd
    intro hcon
    cases hcon
  · subst hd
    intro hcon
    cases hcon

theorem count_joinComposed {x : Frag} {sep : Str} (hx : x ≠ Frag.raw sep) :
    ∀ xs : List (List Frag),
      (joinComposed sep xs).count x = (xs.map (fun l => l.count x)).sum := by
  intro xs
  induction xs with
  | nil => rfl
  | cons hd tl ih =>
    cases tl with
    | nil => simp [joinComposed]
    | cons hd2 tl2 =>
      unfold joinComposed at ih ⊢
      rw [List.intersperse_cons_cons, List.flatten_cons, List.flatten_cons]
      rw [List.count_append, List.count_append]
      have hsep : List.count x [Frag.raw sep] = 0 := by
        rw [List.count_eq_zero]
        intro hmem
        exact hx (List.mem_singleton.mp hmem)
      rw [hsep, ih]
      simp

theorem sum_zero_of_all_zero {l : List ℕ} (h : ∀ n ∈ l, n = 0) : l.sum = 0 := by
  induction l with
  | nil => rfl
  | cons hd tl ih =>
    rw [List.sum_cons, h hd (List.mem_cons_self hd tl),
      ih (fun n hn => h n (List.mem_cons_of_mem hd hn))]

theorem generateSql_count_rparen (nodes : List Node) (rels : List Rel)
    (wc rc : Str) (out : List Frag) (h : generateSql nodes rels wc rc = some out) :
    out.count (Frag.raw (str ") ")) =
      (if cmpAdded nodes wc = true then 1 else 0) := by
  cases nodes with
  | nil => cases h
  | cons first tl =>
    simp only [generateSql] at h
    cases hbj : buildJoins (first :: tl) first.var rels with
    | none => rw [hbj] at h; cases h
    | some jc =>
      rw [hbj] at h
      simp only [Option.some.injEq] at h
      subst h
      have cA : (selectSection (first :: tl) rc).count (Frag.raw (str ") ")) = 0 := by
        rw [List.count_eq_zero]
        intro hmem
        have := selectSection_raws hmem
        revert this
        decide
      have cB : List.count (Frag.raw (str ") "))
          [Frag.raw (str " FROM pgraf.nodes AS "), Frag.ident first.var] = 0 := by
        rw [List.count_eq_zero]
        intro hmem
        rcases List.mem_cons.mp hmem with h1 | h1
        · exact absurd h1 (by decide)
        · rcases List.mem_singleton.mp h1 with h2
          cases h2
      have cC : jc.1.flatten.count (Frag.raw (str ") ")) = 0 := by
        rw [List.count_eq_zero]
        intro hmem
        rw [List.mem_flatten] at hmem
        obtain ⟨x, hx, hfx⟩ := hmem
        have := buildJoins_raws _ _ _ _ hbj x hx _ hfx
        revert this
        decide
      have cNode : ∀ nd : Node, ∀ x ∈ nodeConds nd,
          x.count (Frag.raw (str ") ")) = 0 := by
        intro nd x hx
        rw [List.count_eq_zero]
        intro hmem
        have := nodeConds_raws hx hmem
        revert this
        decide
      rw [List.count_append, List.count_append, List.count_append, cA, cB, cC]
      simp only [Nat.zero_add, Nat.add_zero]
      by_cases hconds : nodeConds first ++ jc.2 ++ whereConds (first :: tl) wc = []
      · have hwcn : whereConds (first :: tl) wc = [] := by
          rcases List.append_eq_nil.mp hconds with ⟨_, h2⟩
          exact h2
        have : cmpAdded (first :: tl) wc = false :=
          (whereConds_empty_iff _ _).mp hwcn
        simp [hconds, this]
      · rw [if_neg hconds]
        rw [List.count_cons]
        have hsepne : Frag.raw (str ") ") ≠ Frag.raw (str " AND ") := by decide
        rw [count_joinComposed hsepne]
        have hwne : (Frag.raw (str ") ") = Frag.raw (str " WHERE ")) = False := by
          simp
          decide
        simp only [List.map_append, List.sum_append]
        have s1 : ((nodeConds first).map
            (fun l => l.count (Frag.raw (str ") ")))).sum = 0 := by
          refine sum_zero_of_all_zero ?_
          intro n hn
          rw [List.mem_map] at hn
          obtain ⟨x, hx, hxc⟩ := hn
          rw [← hxc]
          exact cNode first x hx
        have s2 : (jc.2.map (fun l => l.count (Frag.raw (str ") ")))).sum = 0 := by
          refine sum_zero_of_all_zero ?_
          intro n hn
          rw [List.mem_map] at hn
          obtain ⟨x, hx, hxc⟩ := hn
          rw [← hxc]
          obtain ⟨tn, _, hxn⟩ := buildJoins_conds_elem _ _ _ _ hbj hx
          exact cNode tn x hxn
        have s3 : ((whereConds (first :: tl) wc).map
            (fun l => l.count (Frag.raw (str ") ")))).sum =
            (if cmpAdded (first :: tl) wc = true then 1 else 0) := by
          rcases whereConds_shape (first :: tl) wc with hsh | hsh
          · rw [hsh]
            have : cmpAdded (first :: tl) wc = false :=
              (whereConds_empty_iff _ _).mp hsh
            simp [this]
          · obtain ⟨v, p, o, val, hf, hv, heq⟩ := hsh
            rw [heq]
            have hca : cmpAdded (first :: tl) wc = true := by
              unfold cmpAdded
              rw [hf]
              exact hv
            have hone : List.count (Frag.raw (str ") "))
                [Frag.raw (str "("), Frag.ident v, Frag.raw (str ".properties->>"),
                 Frag.lit p, Frag.raw (str ") "), Frag.raw o, Frag.raw (str " "),
                 Frag.lit (stripQuotes val)] = 1 := by
              have hop : Frag.raw (str ") ") ≠ Frag.raw o := by
                intro hcon
                have := opShape_ne_rparen (findCmp_opShape hf)
                cases hcon
                exact this rfl
              simp [List.count_cons, hop]
              decide
            simp [hca, hone]
        rw [s1, s2, s3]
        simp [hwne]
        decide

/-- C5 counterexample: the WHERE text `p.age == 30` does add a comparison
condition with the two-character operator `==`, which is not among the six
operators `=, <, >, <=, >=, !=` listed by the claim; likewise a WHERE text
with a boolean connective (`AND`) still contributes its first comparison
rather than being ignored. -/
theorem c5_cex_operator_set :
    ((parse gw (str "MATCH (p) WHERE p.age == 30 RETURN p")).toOption.getD
        []).count (Frag.raw (str ") ")) = 1 ∧
    Frag.raw (str "==") ∈
      ((parse gw (str "MATCH (p) WHERE p.age == 30 RETURN p")).toOption.getD []) ∧
    str "==" ∉ [str "=", str "<", str ">", str "<=", str ">=", str "!="] ∧
    ((parse gw (str "MATCH (p) WHERE p.x = 1 AND p.y = 2 RETURN p")).toOption.getD
        []).count (Frag.raw (str ") ")) = 1 :=
  ⟨by decide, by decide, by decide, by decide⟩

/-- C5 (amended): non-empty WHERE text adds at most one condition: exactly
one when the first match of `(\w+)\.(\w+)\s*([=><!]=?)\s*([^,\s]+)` anywhere
in the text names a pattern node (even when the text continues with boolean
connectives), and none otherwise; the emitted condition uses the matched
operator (shape `[=><!]=?`, so `==` and bare `!` are also accepted) and the
literal with surrounding double quotes stripped. -/
theorem c5_where_single_comparison (g : Nat → Str) (q : Str) (out : List Frag)
    (hout : parse g q = .ok out) :
    out.count (Frag.raw (str ") ")) =
      (if cmpAdded (parsePattern g 0 (matchClauseOf q)).nodes
          (whereClauseOf q) = true then 1 else 0) ∧
    (∀ v p o val : Str, findCmp (whereClauseOf q) = some (v, p, o, val) →
      hasVar (parsePattern g 0 (matchClauseOf q)).nodes v = true →
      opShape o ∧
      [Frag.raw (str "("), Frag.ident v, Frag.raw (str ".properties->>"),
       Frag.lit p, Frag.raw (str ") "), Frag.raw o, Frag.raw (str " "),
       Frag.lit (stripQuotes val)] <:+: out) := by
  obtain ⟨_, _, hgen⟩ := parse_ok_inv g q out hout
  constructor
  · exact generateSql_count_rparen _ _ _ _ _ hgen
  · intro v p o val hf hv
    refine ⟨findCmp_opShape hf, ?_⟩
    revert hgen
    cases hnodes : (parsePattern g 0 (matchClauseOf q)).nodes with
    | nil => intro hgen; cases hgen
    | cons first tl =>
      intro hgen
      simp only [generateSql] at hgen
      cases hbj : buildJoins (first :: tl) first.var
          (parsePattern g 0 (matchClauseOf q)).rels with
      | none => rw [hbj] at hgen; cases hgen
      | some jc =>
        rw [hbj] at hgen
        simp only [Option.some.injEq] at hgen
        rcases whereConds_shape (first :: tl) (whereClauseOf q) with hsh | hsh
        · rw [whereConds_empty_iff] at hsh
          unfold cmpAdded at hsh
          rw [hf] at hsh
          have hsh2 : hasVar (first :: tl) v = false := hsh
          rw [hnodes] at hv
          rw [hv] at hsh2
          cases hsh2
        · obtain ⟨v2, p2, o2, val2, hf2, hv2, heq⟩ := hsh
          rw [hf] at hf2
          cases hf2
          have hchunk : [Frag.raw (str "("), Frag.ident v,
              Frag.raw (str ".properties->>"), Frag.lit p,
              Frag.raw (str ") "), Frag.raw o, Frag.raw (str " "),
              Frag.lit (stripQuotes val)] ∈
              nodeConds first ++ jc.2 ++ whereConds (first :: tl) (whereClauseOf q) := by
            rw [heq]
            exact List.mem_append.mpr (Or.inr (List.mem_singleton.mpr rfl))
          have hconds_ne : ¬ (nodeConds first ++ jc.2 ++
              whereConds (first :: tl) (whereClauseOf q) = []) := by
            intro hcon
            rw [hcon] at hchunk
            cases hchunk
          rw [← hgen]
          have hj : [Frag.raw (str "("), Frag.ident v,
              Frag.raw (str ".properties->>"), Frag.lit p,
              Frag.raw (str ") "), Frag.raw o, Frag.raw (str " "),
              Frag.lit (stripQuotes val)] <:+:
              joinComposed (str " AND ")
                (nodeConds first ++ jc.2 ++
                 whereConds (first :: tl) (whereClauseOf q)) :=
            infix_flatten_of_mem (mem_intersperse_of_mem _ hchunk)
          rw [if_neg hconds_ne]
          refine List.IsInfix.trans ?_ (List.suffix_append _ _).isInfix
          exact hj.trans (List.suffix_cons (Frag.raw (str " WHERE ")) _).isInfix

/-- Witness for C5 at `MATCH (p:Person) WHERE p.age > 30 RETURN p.name`. -/
theorem c5_witness :
    ((parse gw (str "MATCH (p:Person) WHERE p.age > 30 RETURN p.name")).toOption.getD
        []).count (Frag.raw (str ") ")) = 1 ∧
    [Frag.raw (str "("), Frag.ident (str "p"), Frag.raw (str ".properties->>"),
     Frag.lit (str "age"), Frag.raw (str ") "), Frag.raw (str ">"),
     Frag.raw (str " "), Frag.lit (str "30")] <:+:
      ((parse gw (str "MATCH (p:Person) WHERE p.age > 30 RETURN p.name")).toOption.getD
        []) := by
  have h := c5_where_single_comparison gw
    (str "MATCH (p:Person) WHERE p.age > 30 RETURN p.name")
    ((parse gw (str "MATCH (p:Person) WHERE p.age > 30 RETURN p.name")).toOption.getD [])
    rfl
  refine ⟨h.1.trans (by decide), ?_⟩
  exact (h.2 (str "p") (str "age") (str ">") (str "30")
    (by decide) (by decide)).2

/-! ## C7: determinism modulo synthetic names

Two runs of `parse` on the same text with different uuid supplies are related
fragment-by-fragment: raw and literal fragments coincide, identifier
fragments agree up to the synthesized anonymous names (and the derived
`r_<source>_<target>` aliases built from them).  The freshness assumption
`NameOk` mirrors the practical uniqueness of uuid4 draws: within the bound of
draws one call can make, the realized anonymous names are pairwise distinct
and do not occur in the (preprocessed) query text. -/

/-- Upper bound on the number of uuid draws one translation can make. -/
def nameBound (q : Str) : Nat := 2 * (preprocess q).length + 2

def NameOk (N : Nat) (g : Nat → Str) (p : Str) : Prop :=
  (∀ k, k < N → ¬ (anonName g k <:+: p)) ∧
  (∀ k l, k < N → l < N → anonName g k = anonName g l → k = l)

def NameRel (g1 g2 : Nat → Str) (s t : Str) : Prop :=
  s = t ∨ ∃ k, s = anonName g1 k ∧ t = anonName g2 k

def SynRel (g1 g2 : Nat → Str) (s t : Str) : Prop :=
  NameRel g1 g2 s t ∨
  ∃ a b a2 b2, NameRel g1 g2 a a2 ∧ NameRel g1 g2 b b2 ∧
    s = str "r_" ++ a ++ str "_" ++ b ∧ t = str "r_" ++ a2 ++ str "_" ++ b2

def FragRel (g1 g2 : Nat → Str) : Frag → Frag → Prop
  | .raw s, .raw t => s = t
  | .lit s, .lit t => s = t
  | .ident s, .ident t => SynRel g1 g2 s t
  | _, _ => False

def OutRel (g1 g2 : Nat → Str) :
    Except PErr (List Frag) → Except PErr (List Frag) → Prop
  | .error e1, .error e2 => e1 = e2
  | .ok o1, .ok o2 => List.Forall₂ (FragRel g1 g2) o1 o2
  | _, _ => False

/-- Working relation on names during the two parses: equal user text that
occurs in the preprocessed query, or the two runs' `k`-th anonymous name for
a draw index `k` already consumed. -/
def KRel (g1 g2 : Nat → Str) (p : Str) (n : Nat) (s t : Str) : Prop :=
  (s = t ∧ s <:+: p) ∨ ∃ k, k < n ∧ s = anonName g1 k ∧ t = anonName g2 k

def NdRel (g1 g2 : Nat → Str) (p : Str) (n : Nat) (nd1 nd2 : Node) : Prop :=
  KRel g1 g2 p n nd1.var nd2.var ∧ nd1.label = nd2.label ∧
    nd1.props = nd2.props

def RlRel (g1 g2 : Nat → Str) (p : Str) (n : Nat) (r1 r2 : Rel) : Prop :=
  r1.var = r2.var ∧ r1.rtype = r2.rtype ∧ r1.props = r2.props ∧
    r1.dir = r2.dir ∧ KRel g1 g2 p n r1.source r2.source ∧
    KRel g1 g2 p n r1.target r2.target

def OCurRel (g1 g2 : Nat → Str) (p : Str) (n : Nat) :
    Option Node → Option Node → Prop
  | none, none => True
  | some a, some b => NdRel g1 g2 p n a b
  | _, _ => False

theorem KRel_mono {g1 g2 : Nat → Str} {p : Str} {n n2 : Nat} (h : n ≤ n2)
    {s t : Str} (hk : KRel g1 g2 p n s t) : KRel g1 g2 p n2 s t := by
  rcases hk with hk | ⟨k, hkn, h1, h2⟩
  · exact Or.inl hk
  · exact Or.inr ⟨k, Nat.lt_of_lt_of_le hkn h, h1, h2⟩

theorem NdRel_mono {g1 g2 : Nat → Str} {p : Str} {n n2 : Nat} (h : n ≤ n2)
    {a b : Node} (hk : NdRel g1 g2 p n a b) : NdRel g1 g2 p n2 a b :=
  ⟨KRel_mono h hk.1, hk.2.1, hk.2.2⟩

theorem RlRel_mono {g1 g2 : Nat → Str} {p : Str} {n n2 : Nat} (h : n ≤ n2)
    {a b : Rel} (hk : RlRel g1 g2 p n a b) : RlRel g1 g2 p n2 a b :=
  ⟨hk.1, hk.2.1, hk.2.2.1, hk.2.2.2.1, KRel_mono h hk.2.2.2.2.1,
   KRel_mono h hk.2.2.2.2.2⟩

theorem KRel_toNameRel {g1 g2 : Nat → Str} {p : Str} {n : Nat} {s t : Str}
    (h : KRel g1 g2 p n s t) : NameRel g1 g2 s t := by
  rcases h with ⟨he, _⟩ | ⟨k, _, h1, h2⟩
  · exact Or.inl he
  · exact Or.inr ⟨k, h1, h2⟩

theorem KRel_toSynRel {g1 g2 : Nat → Str} {p : Str} {n : Nat} {s t : Str}
    (h : KRel g1 g2 p n s t) : SynRel g1 g2 s t :=
  Or.inl (KRel_toNameRel h)

theorem KRel_refl_of_infix {g1 g2 : Nat → Str} {p : Str} {n : Nat} {s : Str}
    (h : s <:+: p) : KRel g1 g2 p n s s :=
  Or.inl ⟨rfl, h⟩

/-- Related pairs decide equality identically. -/
theorem KRel_eq_iff {g1 g2 : Nat → Str} {p : Str} {N n : Nat}
    (hg1 : NameOk N g1 p) (hg2 : NameOk N g2 p) (hn : n ≤ N)
    {a b c d : Str} (hab : KRel g1 g2 p n a b) (hcd : KRel g1 g2 p n c d) :
    (a = c) ↔ (b = d) := by
  rcases hab with ⟨hab1, hab2⟩ | ⟨k, hk, hak, hbk⟩
  · rcases hcd with ⟨hcd1, hcd2⟩ | ⟨l, hl, hcl, hdl⟩
    · rw [← hab1, ← hcd1]
    · constructor
      · intro hac
        rw [hac, hcl] at hab2
        exact absurd hab2 (hg1.1 l (Nat.lt_of_lt_of_le hl hn))
      · intro hbd
        rw [hab1, hbd, hdl] at hab2
        exact absurd hab2 (hg2.1 l (Nat.lt_of_lt_of_le hl hn))
  · rcases hcd with ⟨hcd1, hcd2⟩ | ⟨l, hl, hcl, hdl⟩
    · constructor
      · intro hac
        rw [← hac, hak] at hcd2
        exact absurd hcd2 (hg1.1 k (Nat.lt_of_lt_of_le hk hn))
      · intro hbd
        rw [hcd1, ← hbd, hbk] at hcd2
        exact absurd hcd2 (hg2.1 k (Nat.lt_of_lt_of_le hk hn))
    · constructor
      · intro hac
        rw [hak, hcl] at hac
        have hkl := hg1.2 k l (Nat.lt_of_lt_of_le hk hn)
          (Nat.lt_of_lt_of_le hl hn) hac
        rw [hbk, hdl, hkl]
      · intro hbd
        rw [hbk, hdl] at hbd
        have hkl := hg2.2 k l (Nat.lt_of_lt_of_le hk hn)
          (Nat.lt_of_lt_of_le hl hn) hbd
        rw [hak, hcl, hkl]

/-! ### Infix tracking: every user-derived name is a substring of the text -/

theorem scanStop_prefix (stops : List Str) :
    ∀ {cs s : Str}, scanStop stops cs = some s → s <+: cs := by
  intro cs
  induction cs with
  | nil =>
    intro s h
    cases h
    exact List.nil_prefix
  | cons c rest ih =>
    intro s h
    unfold scanStop at h
    split at h
    · cases h
      exact List.nil_prefix
    · split at h
      · split at h
        · cases h
          exact List.nil_prefix
        · cases h
      · cases hs : scanStop stops rest with
        | none => rw [hs] at h; cases h
        | some s2 =>
          rw [hs] at h
          simp only [Option.map_some', Option.some.injEq] at h
          subst h
          exact List.cons_prefix_cons.mpr ⟨rfl, ih hs⟩

theorem extractGo_infix (kw : Str) (stops : List Str) :
    ∀ {cs s : Str}, extractGo kw stops cs = some s → s <:+: cs := by
  intro cs
  induction cs with
  | nil =>
    intro s h
    cases h
  | cons c rest ih =>
    intro s h
    unfold extractGo at h
    split at h
    · split at h
      · split at h
        · split at h
          · rename_i hscan
            cases h
            have h1 := scanStop_prefix stops hscan
            have h2 : ((c :: rest).drop kw.length).dropWhile isSpaceChar <:+
                (c :: rest) :=
              (List.dropWhile_suffix isSpaceChar).trans
                (List.drop_suffix kw.length (c :: rest))
            exact h1.isInfix.trans h2.isInfix
          · exact (ih h).trans (List.suffix_cons c rest).isInfix
        · exact (ih h).trans (List.suffix_cons c rest).isInfix
      · exact (ih h).trans (List.suffix_cons c rest).isInfix
    · exact (ih h).trans (List.suffix_cons c rest).isInfix

theorem trim_infix (s : Str) : trim s <:+: s := by
  unfold trim
  have h1 : s.dropWhile isSpaceChar <:+ s := List.dropWhile_suffix isSpaceChar
  have h2 : (s.dropWhile isSpaceChar).reverse.dropWhile isSpaceChar <:+
      (s.dropWhile isSpaceChar).reverse := List.dropWhile_suffix isSpaceChar
  obtain ⟨u, hu⟩ := h2
  have h3 : ((s.dropWhile isSpaceChar).reverse.dropWhile isSpaceChar).reverse <+:
      s.dropWhile isSpaceChar := by
    refine ⟨u.reverse, ?_⟩
    have := congrArg List.reverse hu
    simpa [List.reverse_append] using this
  exact h3.isInfix.trans h1.isInfix

theorem extract1_infix (kw : Str) (stops : List Str) (q : Str) :
    extract1 kw stops q <:+: q := by
  unfold extract1
  cases h : extractGo kw stops q with
  | none => exact List.nil_infix
  | some s => exact ( trim_infix s).trans ( extractGo_infix kw stops h)

theorem splitAtSub_decomp (pat : Str) :
    ∀ {l a b : Str}, splitAtSub pat l = some (a, b) → l = a ++ pat ++ b := by
  intro l
  induction l with
  | nil =>
    intro a b h
    cases h
  | cons c rest ih =>
    intro a b h
    unfold splitAtSub at h
    split at h
    · rename_i hpre
      cases h
      simp only [List.nil_append]
      obtain ⟨t, ht⟩ := List.isPrefixOf_iff_prefix.mp hpre
      rw [← ht, List.drop_left]
    · cases hs : splitAtSub pat rest with
      | none => rw [hs] at h; cases h
      | some ab2 =>
        rw [hs] at h
        simp only [Option.map_some', Option.some.injEq] at h
        obtain ⟨a2, b2⟩ := ab2
        cases h
        have := ih hs
        simp [this]

theorem sepAt_decomp :
    ∀ {cs sep r : Str}, sepAt cs = some (sep, r) →
      cs = sep ++ r ∧ 2 ≤ sep.length := by
  intro cs sep r h
  unfold sepAt at h
  split at h
  · rename_i rr
    cases hs : splitAtSub (str "]->") rr with
    | none => rw [hs] at h; cases h
    | some ab =>
      rw [hs] at h
      obtain ⟨mid, rest⟩ := ab
      simp only [Option.map_some', Option.some.injEq] at h
      cases h
      have hd := splitAtSub_decomp (str "]->") hs
      constructor
      · simp [hd]
      · simp
  · rename_i rr
    cases hs : splitAtSub (str "]-") rr with
    | none => rw [hs] at h; cases h
    | some ab =>
      rw [hs] at h
      obtain ⟨mid, rest⟩ := ab
      simp only [Option.map_some', Option.some.injEq] at h
      cases h
      have hd := splitAtSub_decomp (str "]-") hs
      constructor
      · simp [hd]
      · simp
  · cases h

theorem splitFirst_none :
    ∀ {cs s : Str}, splitFirst cs = (s, none) → s = cs := by
  intro cs
  induction cs with
  | nil =>
    intro s h
    cases h
    rfl
  | cons c rest ih =>
    intro s h
    unfold splitFirst at h
    split at h
    · cases h
    · cases hs : splitFirst rest with
      | mk s2 k2 =>
        rw [hs] at h
        cases k2 with
        | none =>
          cases h
          rw [ih hs]
        | some sr => cases h

theorem splitFirst_some :
    ∀ {cs s sep r : Str}, splitFirst cs = (s, some (sep, r)) →
      cs = s ++ sep ++ r ∧ 2 ≤ sep.length := by
  intro cs
  induction cs with
  | nil =>
    intro s sep r h
    cases h
  | cons c rest ih =>
    intro s sep r h
    unfold splitFirst at h
    split at h
    · rename_i sr hsep
      cases h
      obtain ⟨hd, hl⟩ := sepAt_decomp hsep
      exact ⟨by simpa using hd, hl⟩
    · cases hs : splitFirst rest with
      | mk s2 k2 =>
        rw [hs] at h
        cases k2 with
        | none => cases h
        | some sr2 =>
          obtain ⟨sep2, r2⟩ := sr2
          cases h
          obtain ⟨hd, hl⟩ := ih hs
          refine ⟨?_, hl⟩
          simp [hd]

theorem splitSegsF_mem_infix :
    ∀ (fuel : Nat) (cs s : Str), s ∈ splitSegsF fuel cs → s <:+: cs := by
  intro fuel
  induction fuel with
  | zero =>
    intro cs s h
    rcases List.mem_singleton.mp h with h1
    subst h1
    exact List.infix_refl _
  | succ fuel ih =>
    intro cs s h
    unfold splitSegsF at h
    cases hs : splitFirst cs with
    | mk s0 k =>
      rw [hs] at h
      cases k with
      | none =>
        rcases List.mem_singleton.mp h with h1
        subst h1
        rw [splitFirst_none hs]
      | some sr =>
        obtain ⟨sep, r⟩ := sr
        obtain ⟨hd, _⟩ := splitFirst_some hs
        rcases List.mem_cons.mp h with h1 | h1
        · rw [h1, hd]
          exact ((List.prefix_append s0 sep).trans
            (List.prefix_append (s0 ++ sep) r)).isInfix
        · rcases List.mem_cons.mp h1 with h2 | h2
          · rw [h2, hd]
            exact (List.suffix_append s0 sep).isInfix.trans
              (List.prefix_append (s0 ++ sep) r).isInfix
          · have hr := ih r s h2
            rw [hd]
            exact hr.trans (List.suffix_append (s0 ++ sep) r).isInfix

theorem splitSegsF_length :
    ∀ (fuel : Nat) (cs : Str), (splitSegsF fuel cs).length ≤ cs.length + 1 := by
  intro fuel
  induction fuel with
  | zero =>
    intro cs
    simp [splitSegsF]
  | succ fuel ih =>
    intro cs
    unfold splitSegsF
    cases hs : splitFirst cs with
    | mk s0 k =>
      cases k with
      | none => simp
      | some sr =>
        obtain ⟨sep, r⟩ := sr
        obtain ⟨hd, hl⟩ := splitFirst_some hs
        have hlen : r.length + 2 ≤ cs.length := by
          rw [hd]
          simp only [List.length_append]
          omega
        have := ih r
        simp only [List.length_cons]
        omega

theorem splitOnComma_shape :
    ∀ s : Str, ∃ p ps, splitOnComma s = p :: ps ∧ p <+: s ∧
      ∀ x ∈ ps, x <:+: s := by
  intro s
  induction s with
  | nil => exact ⟨[], [], rfl, List.nil_prefix, fun x hx => by cases hx⟩
  | cons c rest ih =>
    obtain ⟨p, ps, hsp, hp, hps⟩ := ih
    by_cases hc : c = ','
    · subst hc
      refine ⟨[], splitOnComma rest, rfl, List.nil_prefix, ?_⟩
      intro x hx
      rw [hsp] at hx
      rcases List.mem_cons.mp hx with h1 | h1
      · subst h1
        exact hp.isInfix.trans (List.suffix_cons ',' rest).isInfix
      · exact (hps x h1).trans (List.suffix_cons ',' rest).isInfix
    · have hstep : splitOnComma (c :: rest) = (c :: p) :: ps := by
        unfold splitOnComma
        rw [if_neg hc, hsp]
      refine ⟨c :: p, ps, hstep, List.cons_prefix_cons.mpr ⟨rfl, hp⟩, ?_⟩
      intro x hx
      exact (hps x hx).trans (List.suffix_cons c rest).isInfix

theorem splitOnComma_mem_infix {s piece : Str}
    (h : piece ∈ splitOnComma s) : piece <:+: s := by
  obtain ⟨p, ps, hsp, hp, hps⟩ := splitOnComma_shape s
  rw [hsp] at h
  rcases List.mem_cons.mp h with h1 | h1
  · subst h1
    exact hp.isInfix
  · exact hps piece h1

theorem matchDescProps_gvar {closeC : Char} {gv gl : Option Str} {r3 : Str}
    {gr : Groups} (h : matchDescProps closeC gv gl r3 = some gr) :
    gr.gvar = gv := by
  unfold matchDescProps at h
  split at h
  · split at h
    · split at h
      · cases h
        rfl
      · cases h
    · cases h
  · split at h
    · cases h
      rfl
    · cases h
  · cases h

theorem matchDescTail_gvar {closeC : Char} {gv : Option Str} {r1 : Str}
    {gr : Groups} (h : matchDescTail closeC gv r1 = some gr) : gr.gvar = gv :=
  matchDescProps_gvar h

theorem matchDescAt_var_infix {openC closeC : Char} :
    ∀ {cs : Str} {gr : Groups} {v : Str},
      matchDescAt openC closeC cs = some gr → gr.gvar = some v → v <:+: cs := by
  intro cs gr v h hv
  cases cs with
  | nil => cases h
  | cons c r0 =>
    have h2 : (if c = openC then
        matchDescTail closeC
          (if r0.takeWhile isWordChar = [] then none
           else some (r0.takeWhile isWordChar))
          (r0.dropWhile isWordChar)
        else none) = some gr := h
    split at h2
    · rw [matchDescTail_gvar h2] at hv
      split at hv
      · cases hv
      · have hveq : v = r0.takeWhile isWordChar := by
          cases hv
          rfl
        rw [hveq]
        exact ((List.takeWhile_prefix isWordChar).isInfix.trans
          (List.suffix_cons c r0).isInfix)
    · cases h2

theorem searchDesc_var_infix {openC closeC : Char} :
    ∀ {cs : Str} {gr : Groups} {v : Str},
      searchDesc openC closeC cs = some gr → gr.gvar = some v → v <:+: cs := by
  intro cs
  induction cs with
  | nil =>
    intro gr v h
    cases h
  | cons c rest ih =>
    intro gr v h hv
    unfold searchDesc at h
    cases hm : matchDescAt openC closeC (c :: rest) with
    | some gr2 =>
      rw [hm] at h
      cases h
      exact matchDescAt_var_infix hm hv
    | none =>
      rw [hm] at h
      exact (ih h hv).trans (List.suffix_cons c rest).isInfix

theorem propMatchAt_var_infix {cs v p0 : Str}
    (h : propMatchAt cs = some (v, p0)) : v <:+: cs := by
  unfold propMatchAt at h
  split at h
  · cases h
  · split at h
    · split at h
      · cases h
      · cases h
        exact (List.takeWhile_prefix isWordChar).isInfix
    · cases h

theorem matchCmpAt_var_infix {cs v p0 o val : Str}
    (h : matchCmpAt cs = some (v, p0, o, val)) : v <:+: cs := by
  unfold matchCmpAt at h
  split at h
  · cases h
  · split at h
    · split at h
      · cases h
      · split at h
        · split at h
          · split at h
            · split at h
              · cases h
                exact (List.takeWhile_prefix isWordChar).isInfix
              · cases h
                exact (List.takeWhile_prefix isWordChar).isInfix
            · split at h
              · cases h
              · cases h
                exact (List.takeWhile_prefix isWordChar).isInfix
          · cases h
        · cases h
    · cases h

theorem findCmp_var_infix :
    ∀ {cs v p0 o val : Str},
      findCmp cs = some (v, p0, o, val) → v <:+: cs := by
  intro cs
  induction cs with
  | nil =>
    intro v p0 o val h
    cases h
  | cons c rest ih =>
    intro v p0 o val h
    unfold findCmp at h
    cases hm : matchCmpAt (c :: rest) with
    | some r =>
      rw [hm] at h
      cases h
      exact matchCmpAt_var_infix hm
    | none =>
      rw [hm] at h
      exact (ih h).trans (List.suffix_cons c rest).isInfix

/-! ### Transfer lemmas between the two runs -/

theorem hasVar_cons (nd : Node) (l : List Node) (v : Str) :
    hasVar (nd :: l) v = ((nd.var == v) || hasVar l v) := rfl

theorem headEq_rel {g1 g2 : Nat → Str} {p : Str} {N n : Nat}
    (hg1 : NameOk N g1 p) (hg2 : NameOk N g2 p) (hn : n ≤ N)
    {a b : Str} (hab : KRel g1 g2 p n a b)
    {v w : Str} (hvw : KRel g1 g2 p n v w) : (a == v) = (b == w) := by
  by_cases he : a = v
  · have h2 : b = w := (KRel_eq_iff hg1 hg2 hn hab hvw).mp he
    simp [he, h2]
  · have h2 : ¬ b = w := fun hc => he ((KRel_eq_iff hg1 hg2 hn hab hvw).mpr hc)
    simp [he, h2]

theorem hasVar_rel {g1 g2 : Nat → Str} {p : Str} {N n : Nat}
    (hg1 : NameOk N g1 p) (hg2 : NameOk N g2 p) (hn : n ≤ N)
    {nodes1 nodes2 : List Node}
    (hnd : List.Forall₂ (NdRel g1 g2 p n) nodes1 nodes2)
    {v w : Str} (hvw : KRel g1 g2 p n v w) :
    hasVar nodes1 v = hasVar nodes2 w := by
  induction hnd with
  | nil => rfl
  | cons hab hrest ih =>
    rw [hasVar_cons, hasVar_cons, ih,
      headEq_rel hg1 hg2 hn hab.1 hvw]

theorem insertNode_rel {g1 g2 : Nat → Str} {p : Str} {N n : Nat}
    (hg1 : NameOk N g1 p) (hg2 : NameOk N g2 p) (hn : n ≤ N)
    {nodes1 nodes2 : List Node}
    (hnd : List.Forall₂ (NdRel g1 g2 p n) nodes1 nodes2)
    {a b : Node} (hab : NdRel g1 g2 p n a b) :
    List.Forall₂ (NdRel g1 g2 p n) (insertNode nodes1 a) (insertNode nodes2 b) := by
  unfold insertNode
  have heq : nodes1.any (fun x => x.var == a.var) =
      nodes2.any (fun x => x.var == b.var) :=
    hasVar_rel hg1 hg2 hn hnd hab.1
  by_cases h1 : nodes1.any (fun x => x.var == a.var) = true
  · rw [if_pos h1, if_pos (heq ▸ h1)]
    exact hnd
  · rw [if_neg h1, if_neg (heq ▸ h1)]
    exact List.rel_append hnd (List.Forall₂.cons hab List.Forall₂.nil)

theorem lookupNode_rel {g1 g2 : Nat → Str} {p : Str} {N n : Nat}
    (hg1 : NameOk N g1 p) (hg2 : NameOk N g2 p) (hn : n ≤ N)
    {nodes1 nodes2 : List Node}
    (hnd : List.Forall₂ (NdRel g1 g2 p n) nodes1 nodes2)
    {v w : Str} (hvw : KRel g1 g2 p n v w) :
    (lookupNode nodes1 v = none ∧ lookupNode nodes2 w = none) ∨
    (∃ a b, lookupNode nodes1 v = some a ∧ lookupNode nodes2 w = some b ∧
      NdRel g1 g2 p n a b) := by
  induction hnd with
  | nil => exact Or.inl ⟨rfl, rfl⟩
  | cons hab hrest ih =>
    rename_i a2 b2 l1 l2
    unfold lookupNode at ih ⊢
    rw [List.find?_cons, List.find?_cons]
    have heq := headEq_rel hg1 hg2 hn hab.1 hvw
    by_cases h1 : (a2.var == v) = true
    · have h2 : (b2.var == w) = true := heq ▸ h1
      rw [h1, h2]
      exact Or.inr ⟨a2, b2, rfl, rfl, hab⟩
    · rw [Bool.not_eq_true] at h1
      have h2 : (b2.var == w) = false := heq ▸ h1
      rw [h1, h2]
      exact ih

theorem parseNode_eq_none {g : Nat → Str} {n : Nat} {seg : Str}
    (hs : nodeSearch seg = none) : parseNode g n seg = (none, n) := by
  simp [parseNode, hs]

theorem parseNode_eq_named {g : Nat → Str} {n : Nat} {seg : Str} {gr : Groups}
    {v : Str} (hs : nodeSearch seg = some gr) (hv : gr.gvar = some v) :
    parseNode g n seg = (some ⟨v, gr.glabel, parseProps gr.gprops⟩, n) := by
  simp [parseNode, hs, hv]

theorem parseNode_eq_anon {g : Nat → Str} {n : Nat} {seg : Str} {gr : Groups}
    (hs : nodeSearch seg = some gr) (hv : gr.gvar = none) :
    parseNode g n seg =
      (some ⟨anonName g n, gr.glabel, parseProps gr.gprops⟩, n + 1) := by
  simp [parseNode, hs, hv]

theorem parseNode_counter {g : Nat → Str} {n : Nat} {seg : Str} :
    n ≤ (parseNode g n seg).2 ∧ (parseNode g n seg).2 ≤ n + 1 := by
  cases hs : nodeSearch seg with
  | none =>
    rw [parseNode_eq_none hs]
    exact ⟨Nat.le_refl n, Nat.le_succ n⟩
  | some gr =>
    cases hv : gr.gvar with
    | some v =>
      rw [parseNode_eq_named hs hv]
      exact ⟨Nat.le_refl n, Nat.le_succ n⟩
    | none =>
      rw [parseNode_eq_anon hs hv]
      exact ⟨Nat.le_succ n, Nat.le_refl (n + 1)⟩

theorem parseNode_rel {g1 g2 : Nat → Str} {p : Str} {n : Nat} {seg : Str}
    (hseg : seg <:+: p) :
    (parseNode g1 n seg = (none, n) ∧ parseNode g2 n seg = (none, n)) ∨
    (∃ a b n1, parseNode g1 n seg = (some a, n1) ∧
      parseNode g2 n seg = (some b, n1) ∧ NdRel g1 g2 p n1 a b ∧
      n ≤ n1 ∧ n1 ≤ n + 1) := by
  cases hs : nodeSearch seg with
  | none => exact Or.inl ⟨parseNode_eq_none hs, parseNode_eq_none hs⟩
  | some gr =>
    cases hv : gr.gvar with
    | some v =>
      refine Or.inr ⟨⟨v, gr.glabel, parseProps gr.gprops⟩,
        ⟨v, gr.glabel, parseProps gr.gprops⟩, n, parseNode_eq_named hs hv,
        parseNode_eq_named hs hv, ?_, Nat.le_refl n, Nat.le_succ n⟩
      refine ⟨Or.inl ⟨rfl, ?_⟩, rfl, rfl⟩
      exact ( searchDesc_var_infix hs hv).trans hseg
    | none =>
      refine Or.inr ⟨⟨anonName g1 n, gr.glabel, parseProps gr.gprops⟩,
        ⟨anonName g2 n, gr.glabel, parseProps gr.gprops⟩, n + 1,
        parseNode_eq_anon hs hv, parseNode_eq_anon hs hv, ?_,
        Nat.le_succ n, Nat.le_refl (n + 1)⟩
      exact ⟨Or.inr ⟨n, Nat.lt_succ_self n, rfl, rfl⟩, rfl, rfl⟩

theorem Forall₂_intersperse {α : Type} {R : α → α → Prop} {sep1 sep2 : α}
    (hsep : R sep1 sep2) :
    ∀ {l1 l2 : List α}, List.Forall₂ R l1 l2 →
      List.Forall₂ R (l1.intersperse sep1) (l2.intersperse sep2) := by
  intro l1
  induction l1 with
  | nil =>
    intro l2 h
    cases h
    exact List.Forall₂.nil
  | cons hd tl ih =>
    intro l2 h
    cases h with
    | cons hhd htl =>
      rename_i b l2'
      cases htl with
      | nil => simpa using List.Forall₂.cons hhd List.Forall₂.nil
      | cons hhd2 htl2 =>
        rename_i b2 l2'' a2 l1''
        rw [List.intersperse_cons_cons, List.intersperse_cons_cons]
        exact List.Forall₂.cons hhd (List.Forall₂.cons hsep
          (ih (List.Forall₂.cons hhd2 htl2)))

/-! ### Relating the two generated fragment sequences -/

def FragsRel (g1 g2 : Nat → Str) : List Frag → List Frag → Prop :=
  List.Forall₂ (FragRel g1 g2)

def CondsRel (g1 g2 : Nat → Str) : List (List Frag) → List (List Frag) → Prop :=
  List.Forall₂ (FragsRel g1 g2)

theorem SynRel_refl (g1 g2 : Nat → Str) (s : Str) : SynRel g1 g2 s s :=
  Or.inl (Or.inl rfl)

theorem Forall₂_map_same {α β : Type} {R : β → β → Prop} {f g : α → β}
    {l : List α} (h : ∀ x ∈ l, R (f x) (g x)) :
    List.Forall₂ R (l.map f) (l.map g) := by
  induction l with
  | nil => exact List.Forall₂.nil
  | cons hd tl ih =>
    exact List.Forall₂.cons (h hd (List.mem_cons_self hd tl))
      (ih (fun x hx => h x (List.mem_cons_of_mem hd hx)))

theorem Forall₂_flatMap_same {α β : Type} {R : β → β → Prop} {f g : α → List β}
    {l : List α} (h : ∀ x ∈ l, List.Forall₂ R (f x) (g x)) :
    List.Forall₂ R (l.flatMap f) (l.flatMap g) := by
  induction l with
  | nil => exact List.Forall₂.nil
  | cons hd tl ih =>
    rw [List.flatMap_cons, List.flatMap_cons]
    exact List.rel_append (h hd (List.mem_cons_self hd tl))
      (ih (fun x hx => h x (List.mem_cons_of_mem hd hx)))

theorem joinComposed_rel {g1 g2 : Nat → Str} {sep : Str}
    {xs ys : List (List Frag)} (h : CondsRel g1 g2 xs ys) :
    FragsRel g1 g2 (joinComposed sep xs) (joinComposed sep ys) := by
  unfold joinComposed
  refine List.rel_flatten ?_
  refine Forall₂_intersperse ?_ h
  exact List.Forall₂.cons rfl List.Forall₂.nil

theorem nodeConds_rel {g1 g2 : Nat → Str} {p : Str} {n : Nat} {a b : Node}
    (hab : NdRel g1 g2 p n a b) :
    CondsRel g1 g2 (nodeConds a) (nodeConds b) := by
  unfold nodeConds
  refine List.rel_append ?_ ?_
  · rw [← hab.2.1]
    cases a.label with
    | none => exact List.Forall₂.nil
    | some l =>
      refine List.Forall₂.cons ?_ List.Forall₂.nil
      exact List.Forall₂.cons (KRel_toSynRel hab.1)
        (List.Forall₂.cons rfl (List.Forall₂.cons rfl List.Forall₂.nil))
  · rw [← hab.2.2]
    refine Forall₂_map_same ?_
    intro kv _
    exact List.Forall₂.cons (KRel_toSynRel hab.1)
      (List.Forall₂.cons rfl (List.Forall₂.cons rfl
        (List.Forall₂.cons rfl (List.Forall₂.cons rfl List.Forall₂.nil))))

theorem perItem_rel {g1 g2 : Nat → Str} {p : Str} {N n : Nat}
    (hg1 : NameOk N g1 p) (hg2 : NameOk N g2 p) (hn : n ≤ N)
    {nodes1 nodes2 : List Node}
    (hnd : List.Forall₂ (NdRel g1 g2 p n) nodes1 nodes2)
    {item : Str} (hitem : item <:+: p) :
    CondsRel g1 g2 (perItem nodes1 item) (perItem nodes2 item) := by
  unfold perItem
  by_cases hdot : item.contains '.' = true
  · rw [hdot]
    simp only [if_true]
    cases hpm : propMatchAt item with
    | none => exact List.Forall₂.nil
    | some vp =>
      obtain ⟨v, pp⟩ := vp
      have hkv : KRel g1 g2 p n v v :=
        KRel_refl_of_infix (( propMatchAt_var_infix hpm).trans hitem)
      have heq := hasVar_rel hg1 hg2 hn hnd hkv
      show CondsRel g1 g2
        (if hasVar nodes1 v = true then
          [[Frag.ident v, Frag.raw (str ".properties->>"), Frag.lit pp]]
        else [])
        (if hasVar nodes2 v = true then
          [[Frag.ident v, Frag.raw (str ".properties->>"), Frag.lit pp]]
        else [])
      by_cases hv : hasVar nodes1 v = true
      · rw [if_pos hv, if_pos (heq ▸ hv)]
        refine List.Forall₂.cons ?_ List.Forall₂.nil
        exact List.Forall₂.cons (SynRel_refl g1 g2 v)
          (List.Forall₂.cons rfl (List.Forall₂.cons rfl List.Forall₂.nil))
      · rw [if_neg hv, if_neg (fun hc => hv (heq ▸ hc))]
        exact List.Forall₂.nil
  · rw [Bool.not_eq_true] at hdot
    rw [hdot]
    simp only [Bool.false_eq_true, if_false]
    have hki : KRel g1 g2 p n item item := KRel_refl_of_infix hitem
    have heq := hasVar_rel hg1 hg2 hn hnd hki
    by_cases hv : hasVar nodes1 item = true
    · rw [if_pos hv, if_pos (heq ▸ hv)]
      refine List.Forall₂.cons ?_ List.Forall₂.nil
      exact List.Forall₂.cons (SynRel_refl g1 g2 item)
        (List.Forall₂.cons rfl List.Forall₂.nil)
    · rw [if_neg hv, if_neg (fun hc => hv (heq ▸ hc))]
      by_cases hstar : item = str "*"
      · rw [if_pos hstar, if_pos hstar]
        refine List.rel_map ?_ hnd
        intro a b hab
        exact List.Forall₂.cons (KRel_toSynRel hab.1)
          (List.Forall₂.cons rfl List.Forall₂.nil)
      · rw [if_neg hstar, if_neg hstar]
        exact List.Forall₂.nil

theorem selectSection_rel {g1 g2 : Nat → Str} {p : Str} {N n : Nat}
    (hg1 : NameOk N g1 p) (hg2 : NameOk N g2 p) (hn : n ≤ N)
    {nodes1 nodes2 : List Node}
    (hnd : List.Forall₂ (NdRel g1 g2 p n) nodes1 nodes2)
    {rc : Str} (hrc : rc <:+: p) :
    FragsRel g1 g2 (selectSection nodes1 rc) (selectSection nodes2 rc) := by
  have hitems : CondsRel g1 g2
      ((splitOnComma rc).flatMap (fun pc => perItem nodes1 (trim pc)))
      ((splitOnComma rc).flatMap (fun pc => perItem nodes2 (trim pc))) := by
    refine Forall₂_flatMap_same ?_
    intro pc hpc
    exact perItem_rel hg1 hg2 hn hnd
      (( trim_infix pc).trans (( splitOnComma_mem_infix hpc).trans hrc))
  have hcols : CondsRel g1 g2 (allColsItems nodes1) (allColsItems nodes2) := by
    refine List.rel_map ?_ hnd
    intro a b hab
    exact List.Forall₂.cons (KRel_toSynRel hab.1)
      (List.Forall₂.cons rfl List.Forall₂.nil)
  unfold selectSection
  by_cases hemp :
      (splitOnComma rc).flatMap (fun pc => perItem nodes1 (trim pc)) = []
  · have hemp2 :
        (splitOnComma rc).flatMap (fun pc => perItem nodes2 (trim pc)) = [] := by
      have hl := List.Forall₂.length_eq hitems
      rw [hemp] at hl
      exact List.eq_nil_of_length_eq_zero hl.symm
    rw [if_pos hemp, if_pos hemp2]
    exact List.Forall₂.cons rfl (joinComposed_rel hcols)
  · have hemp2 : ¬
        (splitOnComma rc).flatMap (fun pc => perItem nodes2 (trim pc)) = [] := by
      intro hc
      have hl := List.Forall₂.length_eq hitems
      rw [hc] at hl
      exact hemp (List.eq_nil_of_length_eq_zero hl)
    rw [if_neg hemp, if_neg hemp2]
    exact List.Forall₂.cons rfl (joinComposed_rel hitems)

theorem whereConds_rel {g1 g2 : Nat → Str} {p : Str} {N n : Nat}
    (hg1 : NameOk N g1 p) (hg2 : NameOk N g2 p) (hn : n ≤ N)
    {nodes1 nodes2 : List Node}
    (hnd : List.Forall₂ (NdRel g1 g2 p n) nodes1 nodes2)
    {wc : Str} (hwc : wc <:+: p) :
    CondsRel g1 g2 (whereConds nodes1 wc) (whereConds nodes2 wc) := by
  unfold whereConds
  by_cases hw : wc = []
  · rw [if_pos hw, if_pos hw]
    exact List.Forall₂.nil
  · rw [if_neg hw, if_neg hw]
    cases hf : findCmp wc with
    | none => exact List.Forall₂.nil
    | some r =>
      obtain ⟨v, pp, o, val⟩ := r
      have hkv : KRel g1 g2 p n v v :=
        KRel_refl_of_infix (( findCmp_var_infix hf).trans hwc)
      have heq := hasVar_rel hg1 hg2 hn hnd hkv
      show CondsRel g1 g2
        (if hasVar nodes1 v = true then
          [[Frag.raw (str "("), Frag.ident v, Frag.raw (str ".properties->>"),
            Frag.lit pp, Frag.raw (str ") "), Frag.raw o, Frag.raw (str " "),
            Frag.lit (stripQuotes val)]]
        else [])
        (if hasVar nodes2 v = true then
          [[Frag.raw (str "("), Frag.ident v, Frag.raw (str ".properties->>"),
            Frag.lit pp, Frag.raw (str ") "), Frag.raw o, Frag.raw (str " "),
            Frag.lit (stripQuotes val)]]
        else [])
      by_cases hv : hasVar nodes1 v = true
      · rw [if_pos hv, if_pos (heq ▸ hv)]
        refine List.Forall₂.cons ?_ List.Forall₂.nil
        exact List.Forall₂.cons rfl (List.Forall₂.cons (SynRel_refl g1 g2 v)
          (List.Forall₂.cons rfl (List.Forall₂.cons rfl
            (List.Forall₂.cons rfl (List.Forall₂.cons rfl
              (List.Forall₂.cons rfl
                (List.Forall₂.cons rfl List.Forall₂.nil)))))))
      · rw [if_neg hv, if_neg (fun hc => hv (heq ▸ hc))]
        exact List.Forall₂.nil

theorem relAlias_rel {g1 g2 : Nat → Str} {p : Str} {n : Nat} {r1 r2 : Rel}
    (h : RlRel g1 g2 p n r1 r2) : SynRel g1 g2 (relAlias r1) (relAlias r2) := by
  unfold relAlias
  rw [← h.1]
  cases hv : r1.var with
  | some v => exact SynRel_refl g1 g2 v
  | none =>
    exact Or.inr ⟨r1.source, r1.target, r2.source, r2.target,
      KRel_toNameRel h.2.2.2.2.1, KRel_toNameRel h.2.2.2.2.2, rfl, rfl⟩

/-- First fragment run of a relationship's join block. -/
def edgeJoinHead (r : Rel) : List Frag :=
  [Frag.raw (str " JOIN pgraf.edges AS "), Frag.ident (relAlias r),
   Frag.raw (str " ON ")]

/-- The optional edge-type filter chunk. -/
def typeChunks (r : Rel) : List (List Frag) :=
  match r.rtype with
  | some t => [[Frag.raw (str " "), Frag.ident (relAlias r),
                Frag.raw (str ".label = "), Frag.lit t, Frag.raw (str " AND")]]
  | none => []

theorem nodeJoinChunk_rel {g1 g2 : Nat → Str} {p : Str} {n : Nat} {a b : Str}
    (h : KRel g1 g2 p n a b) :
    FragsRel g1 g2 (nodeJoinChunk a) (nodeJoinChunk b) :=
  List.Forall₂.cons rfl (List.Forall₂.cons (KRel_toSynRel h)
    (List.Forall₂.cons rfl List.Forall₂.nil))

theorem edgeJoinHead_rel {g1 g2 : Nat → Str} {p : Str} {n : Nat} {r1 r2 : Rel}
    (hr : RlRel g1 g2 p n r1 r2) :
    FragsRel g1 g2 (edgeJoinHead r1) (edgeJoinHead r2) :=
  List.Forall₂.cons rfl (List.Forall₂.cons (relAlias_rel hr)
    (List.Forall₂.cons rfl List.Forall₂.nil))

theorem edgeOpen_rel {g1 g2 : Nat → Str} {p : Str} {n : Nat} {r1 r2 : Rel}
    (hr : RlRel g1 g2 p n r1 r2) :
    FragsRel g1 g2 (edgeOpen r1) (edgeOpen r2) := by
  unfold edgeOpen
  rw [← hr.2.2.2.1]
  by_cases hd : r1.dir = Dir.out
  · rw [if_pos hd, if_pos hd]
    exact List.Forall₂.cons rfl (List.Forall₂.cons
      (KRel_toSynRel hr.2.2.2.2.1) (List.Forall₂.cons rfl
        (List.Forall₂.cons (relAlias_rel hr)
          (List.Forall₂.cons rfl List.Forall₂.nil))))
  · rw [if_neg hd, if_neg hd]
    exact List.Forall₂.cons rfl (List.Forall₂.cons
      (KRel_toSynRel hr.2.2.2.2.1) (List.Forall₂.cons rfl
        (List.Forall₂.cons (relAlias_rel hr)
          (List.Forall₂.cons rfl List.Forall₂.nil))))

theorem edgeClose_rel {g1 g2 : Nat → Str} {p : Str} {n : Nat} {r1 r2 : Rel}
    (hr : RlRel g1 g2 p n r1 r2) :
    FragsRel g1 g2 (edgeClose r1) (edgeClose r2) := by
  unfold edgeClose
  rw [← hr.2.2.2.1]
  by_cases hd : r1.dir = Dir.out
  · rw [if_pos hd, if_pos hd]
    exact List.Forall₂.cons rfl (List.Forall₂.cons (relAlias_rel hr)
      (List.Forall₂.cons rfl (List.Forall₂.cons
        (KRel_toSynRel hr.2.2.2.2.2)
          (List.Forall₂.cons rfl List.Forall₂.nil))))
  · rw [if_neg hd, if_neg hd]
    exact List.Forall₂.cons rfl (List.Forall₂.cons (relAlias_rel hr)
      (List.Forall₂.cons rfl (List.Forall₂.cons
        (KRel_toSynRel hr.2.2.2.2.2)
          (List.Forall₂.cons rfl List.Forall₂.nil))))

theorem typeChunks_rel {g1 g2 : Nat → Str} {p : Str} {n : Nat} {r1 r2 : Rel}
    (hr : RlRel g1 g2 p n r1 r2) :
    CondsRel g1 g2 (typeChunks r1) (typeChunks r2) := by
  unfold typeChunks
  rw [← hr.2.1]
  cases hty : r1.rtype with
  | none => exact List.Forall₂.nil
  | some t =>
    exact List.Forall₂.cons (List.Forall₂.cons rfl (List.Forall₂.cons
      (relAlias_rel hr) (List.Forall₂.cons rfl (List.Forall₂.cons rfl
        (List.Forall₂.cons rfl List.Forall₂.nil))))) List.Forall₂.nil

theorem buildJoins_cons_fv (nodes : List Node) (fv : Str) (r : Rel)
    (rest : List Rel) (ht : r.target = fv) :
    buildJoins nodes fv (r :: rest) =
      (buildJoins nodes fv rest).map
        (fun jc => ([edgeJoinHead r, edgeOpen r] ++ typeChunks r ++
          [edgeClose r] ++ jc.1, jc.2)) := by
  show (if r.target = fv then _ else _) = _
  rw [if_pos ht]
  rfl

theorem buildJoins_cons_none (nodes : List Node) (fv : Str) (r : Rel)
    (rest : List Rel) (ht : ¬ r.target = fv)
    (hl : lookupNode nodes r.target = none) :
    buildJoins nodes fv (r :: rest) = none := by
  show (if r.target = fv then _ else _) = _
  rw [if_neg ht, hl]

theorem buildJoins_cons_some (nodes : List Node) (fv : Str) (r : Rel)
    (rest : List Rel) (tn : Node) (ht : ¬ r.target = fv)
    (hl : lookupNode nodes r.target = some tn) :
    buildJoins nodes fv (r :: rest) =
      (buildJoins nodes fv rest).map
        (fun jc => ([edgeJoinHead r, edgeOpen r] ++ typeChunks r ++
          [edgeClose r, nodeJoinChunk r.target] ++ jc.1,
          nodeConds tn ++ jc.2)) := by
  show (if r.target = fv then _ else _) = _
  rw [if_neg ht, hl]
  rfl

theorem buildJoins_rel {g1 g2 : Nat → Str} {p : Str} {N n : Nat}
    (hg1 : NameOk N g1 p) (hg2 : NameOk N g2 p) (hn : n ≤ N)
    {nodes1 nodes2 : List Node}
    (hnd : List.Forall₂ (NdRel g1 g2 p n) nodes1 nodes2)
    {fv1 fv2 : Str} (hfv : KRel g1 g2 p n fv1 fv2)
    {rels1 rels2 : List Rel}
    (hrels : List.Forall₂ (RlRel g1 g2 p n) rels1 rels2) :
    (buildJoins nodes1 fv1 rels1 = none ∧
      buildJoins nodes2 fv2 rels2 = none) ∨
    (∃ jc1 jc2, buildJoins nodes1 fv1 rels1 = some jc1 ∧
      buildJoins nodes2 fv2 rels2 = some jc2 ∧
      CondsRel g1 g2 jc1.1 jc2.1 ∧ CondsRel g1 g2 jc1.2 jc2.2) := by
  induction hrels with
  | nil =>
    exact Or.inr ⟨([], []), ([], []), rfl, rfl, List.Forall₂.nil,
      List.Forall₂.nil⟩
  | @cons x y xs ys hr hrest ih =>
    have htiff := KRel_eq_iff hg1 hg2 hn hr.2.2.2.2.2 hfv
    by_cases ht : x.target = fv1
    · have ht2 : y.target = fv2 := htiff.mp ht
      rw [buildJoins_cons_fv nodes1 fv1 x xs ht,
        buildJoins_cons_fv nodes2 fv2 y ys ht2]
      rcases ih with ⟨h1, h2⟩ | ⟨jc1, jc2, h1, h2, hj, hc⟩
      · rw [h1, h2]
        exact Or.inl ⟨rfl, rfl⟩
      · rw [h1, h2]
        refine Or.inr ⟨_, _, rfl, rfl, ?_, hc⟩
        refine List.rel_append (List.rel_append (List.rel_append
          (List.Forall₂.cons (edgeJoinHead_rel hr)
            (List.Forall₂.cons (edgeOpen_rel hr) List.Forall₂.nil))
          (typeChunks_rel hr))
          (List.Forall₂.cons (edgeClose_rel hr) List.Forall₂.nil)) hj
    · have ht2 : ¬ y.target = fv2 := fun hc => ht (htiff.mpr hc)
      rcases lookupNode_rel hg1 hg2 hn hnd hr.2.2.2.2.2 with
        ⟨hl1, hl2⟩ | ⟨tn1, tn2, hl1, hl2, htn⟩
      · rw [buildJoins_cons_none nodes1 fv1 x xs ht hl1,
          buildJoins_cons_none nodes2 fv2 y ys ht2 hl2]
        exact Or.inl ⟨rfl, rfl⟩
      · rw [buildJoins_cons_some nodes1 fv1 x xs tn1 ht hl1,
          buildJoins_cons_some nodes2 fv2 y ys tn2 ht2 hl2]
        rcases ih with ⟨h1, h2⟩ | ⟨jc1, jc2, h1, h2, hj, hc⟩
        · rw [h1, h2]
          exact Or.inl ⟨rfl, rfl⟩
        · rw [h1, h2]
          refine Or.inr ⟨_, _, rfl, rfl, ?_, ?_⟩
          · refine List.rel_append (List.rel_append (List.rel_append
              (List.Forall₂.cons (edgeJoinHead_rel hr)
                (List.Forall₂.cons (edgeOpen_rel hr) List.Forall₂.nil))
              (typeChunks_rel hr))
              (List.Forall₂.cons (edgeClose_rel hr)
                (List.Forall₂.cons (nodeJoinChunk_rel hr.2.2.2.2.2)
                  List.Forall₂.nil))) hj
          · exact List.rel_append (nodeConds_rel htn) hc

theorem generateSql_cons (first : Node) (tl : List Node) (rels : List Rel)
    (wc rc : Str) :
    generateSql (first :: tl) rels wc rc =
      (match buildJoins (first :: tl) first.var rels with
       | none => none
       | some jc =>
         some (selectSection (first :: tl) rc ++
           [Frag.raw (str " FROM pgraf.nodes AS "), Frag.ident first.var] ++
           jc.1.flatten ++
           (if nodeConds first ++ jc.2 ++ whereConds (first :: tl) wc = []
            then []
            else Frag.raw (str " WHERE ") :: joinComposed (str " AND ")
              (nodeConds first ++ jc.2 ++ whereConds (first :: tl) wc)))) := by
  cases h : buildJoins (first :: tl) first.var rels with
  | none => simp [generateSql, h]
  | some jc =>
    by_cases hcs : nodeConds first ++ jc.2 ++ whereConds (first :: tl) wc = [] <;>
      simp [generateSql, h, hcs]

theorem generateSql_rel {g1 g2 : Nat → Str} {p : Str} {N n : Nat}
    (hg1 : NameOk N g1 p) (hg2 : NameOk N g2 p) (hn : n ≤ N)
    {nodes1 nodes2 : List Node}
    (hnd : List.Forall₂ (NdRel g1 g2 p n) nodes1 nodes2)
    {rels1 rels2 : List Rel}
    (hrels : List.Forall₂ (RlRel g1 g2 p n) rels1 rels2)
    {wc rc : Str} (hwc : wc <:+: p) (hrc : rc <:+: p) :
    (generateSql nodes1 rels1 wc rc = none ∧
      generateSql nodes2 rels2 wc rc = none) ∨
    (∃ out1 out2, generateSql nodes1 rels1 wc rc = some out1 ∧
      generateSql nodes2 rels2 wc rc = some out2 ∧
      FragsRel g1 g2 out1 out2) := by
  cases hnd with
  | nil => exact Or.inl ⟨rfl, rfl⟩
  | @cons a b tl1 tl2 hab htl =>
    have hnd2 : List.Forall₂ (NdRel g1 g2 p n) (a :: tl1) (b :: tl2) :=
      List.Forall₂.cons hab htl
    rw [generateSql_cons, generateSql_cons]
    rcases buildJoins_rel hg1 hg2 hn hnd2 hab.1 hrels with
      ⟨h1, h2⟩ | ⟨jc1, jc2, h1, h2, hj, hc⟩
    · rw [h1, h2]
      exact Or.inl ⟨rfl, rfl⟩
    · rw [h1, h2]
      have hconds : CondsRel g1 g2
          (nodeConds a ++ jc1.2 ++ whereConds (a :: tl1) wc)
          (nodeConds b ++ jc2.2 ++ whereConds (b :: tl2) wc) :=
        List.rel_append (List.rel_append (nodeConds_rel hab) hc)
          (whereConds_rel hg1 hg2 hn hnd2 hwc)
      have hsel := selectSection_rel hg1 hg2 hn hnd2 hrc
      have hwhereF : FragsRel g1 g2
          (if nodeConds a ++ jc1.2 ++ whereConds (a :: tl1) wc = [] then []
           else Frag.raw (str " WHERE ") :: joinComposed (str " AND ")
             (nodeConds a ++ jc1.2 ++ whereConds (a :: tl1) wc))
          (if nodeConds b ++ jc2.2 ++ whereConds (b :: tl2) wc = [] then []
           else Frag.raw (str " WHERE ") :: joinComposed (str " AND ")
             (nodeConds b ++ jc2.2 ++ whereConds (b :: tl2) wc)) := by
        by_cases hcs : nodeConds a ++ jc1.2 ++ whereConds (a :: tl1) wc = []
        · have hcs2 : nodeConds b ++ jc2.2 ++ whereConds (b :: tl2) wc = [] := by
            have hl := List.Forall₂.length_eq hconds
            rw [hcs] at hl
            exact List.eq_nil_of_length_eq_zero hl.symm
          rw [if_pos hcs, if_pos hcs2]
          exact List.Forall₂.nil
        · have hcs2 : ¬
              nodeConds b ++ jc2.2 ++ whereConds (b :: tl2) wc = [] := by
            intro hz
            have hl := List.Forall₂.length_eq hconds
            rw [hz] at hl
            exact hcs (List.eq_nil_of_length_eq_zero hl)
          rw [if_neg hcs, if_neg hcs2]
          exact List.Forall₂.cons rfl (joinComposed_rel hconds)
      refine Or.inr ⟨_, _, rfl, rfl, ?_⟩
      show FragsRel g1 g2
        (selectSection (a :: tl1) rc ++
          [Frag.raw (str " FROM pgraf.nodes AS "), Frag.ident a.var] ++
          jc1.1.flatten ++
          (if nodeConds a ++ jc1.2 ++ whereConds (a :: tl1) wc = [] then []
           else Frag.raw (str " WHERE ") :: joinComposed (str " AND ")
             (nodeConds a ++ jc1.2 ++ whereConds (a :: tl1) wc)))
        (selectSection (b :: tl2) rc ++
          [Frag.raw (str " FROM pgraf.nodes AS "), Frag.ident b.var] ++
          jc2.1.flatten ++
          (if nodeConds b ++ jc2.2 ++ whereConds (b :: tl2) wc = [] then []
           else Frag.raw (str " WHERE ") :: joinComposed (str " AND ")
             (nodeConds b ++ jc2.2 ++ whereConds (b :: tl2) wc)))
      refine List.rel_append (List.rel_append (List.rel_append hsel ?_)
        (List.rel_flatten hj)) hwhereF
      exact List.Forall₂.cons rfl
        (List.Forall₂.cons (KRel_toSynRel hab.1) List.Forall₂.nil)

/-! ### Relating the two pattern-parsing runs -/

theorem OCurRel_mono {g1 g2 : Nat → Str} {p : Str} {n n2 : Nat} (h : n ≤ n2) :
    ∀ {c1 c2 : Option Node}, OCurRel g1 g2 p n c1 c2 → OCurRel g1 g2 p n2 c1 c2
  | none, none, _ => trivial
  | some _, some _, h1 => NdRel_mono h h1

theorem patGo_cons_blank (g : Nat → Str) (seg : Str) (rest : List Str)
    (cur : Option Node) (nodes : List Node) (rels : List Rel) (n : Nat)
    (hbl : trim seg = []) :
    patGo g (seg :: rest) cur nodes rels n = patGo g rest cur nodes rels n := by
  simp [patGo, hbl]

theorem patGo_cons_relNone (g : Nat → Str) (seg : Str) (rest : List Str)
    (cur : Option Node) (nodes : List Node) (rels : List Rel) (n : Nat)
    (hbl : ¬ trim seg = [])
    (hh : (trim seg).head? = some '-' ∨ (trim seg).head? = some '<')
    (hr : relSearch (trim seg) = none) :
    patGo g (seg :: rest) cur nodes rels n = patGo g rest cur nodes rels n := by
  simp [patGo, hbl, hh, hr]

theorem patGo_cons_relSkip (g : Nat → Str) (seg : Str) (rest : List Str)
    (nodes : List Node) (rels : List Rel) (n : Nat) (rg : Groups)
    (hbl : ¬ trim seg = [])
    (hh : (trim seg).head? = some '-' ∨ (trim seg).head? = some '<')
    (hr : relSearch (trim seg) = some rg) :
    patGo g (seg :: rest) none nodes rels n =
      patGo g rest none nodes rels n := by
  simp [patGo, hbl, hh, hr]

theorem patGo_cons_relLast (g : Nat → Str) (seg : Str) (curN : Node)
    (nodes : List Node) (rels : List Rel) (n : Nat) (rg : Groups)
    (hbl : ¬ trim seg = [])
    (hh : (trim seg).head? = some '-' ∨ (trim seg).head? = some '<')
    (hr : relSearch (trim seg) = some rg) :
    patGo g [seg] (some curN) nodes rels n = ⟨nodes, rels, n⟩ := by
  simp [patGo, hbl, hh, hr]

theorem patGo_cons_relParseNone (g : Nat → Str) (seg nextSeg : Str)
    (tl : List Str) (curN : Node) (nodes : List Node) (rels : List Rel)
    (n n1 : Nat) (rg : Groups)
    (hbl : ¬ trim seg = [])
    (hh : (trim seg).head? = some '-' ∨ (trim seg).head? = some '<')
    (hr : relSearch (trim seg) = some rg)
    (hp : parseNode g n nextSeg = (none, n1)) :
    patGo g (seg :: nextSeg :: tl) (some curN) nodes rels n =
      patGo g (nextSeg :: tl) (some curN) nodes rels n1 := by
  simp [patGo, hbl, hh, hr, hp]

theorem patGo_cons_relParseSome (g : Nat → Str) (seg nextSeg : Str)
    (tl : List Str) (curN : Node) (nodes : List Node) (rels : List Rel)
    (n n1 : Nat) (rg : Groups) (nextN : Node)
    (hbl : ¬ trim seg = [])
    (hh : (trim seg).head? = some '-' ∨ (trim seg).head? = some '<')
    (hr : relSearch (trim seg) = some rg)
    (hp : parseNode g n nextSeg = (some nextN, n1)) :
    patGo g (seg :: nextSeg :: tl) (some curN) nodes rels n =
      patGo g (nextSeg :: tl) (some curN) (insertNode nodes nextN)
        (rels ++ [⟨g n1, rg.gvar, rg.glabel, parseProps rg.gprops,
          (if (trim seg).head? = some '<' then Dir.inc else Dir.out),
          curN.var, nextN.var⟩]) (n1 + 1) := by
  simp [patGo, hbl, hh, hr, hp]

theorem patGo_cons_nodeSome (g : Nat → Str) (seg : Str) (rest : List Str)
    (cur : Option Node) (nodes : List Node) (rels : List Rel) (n n1 : Nat)
    (nd : Node)
    (hbl : ¬ trim seg = [])
    (hh : ¬ ((trim seg).head? = some '-' ∨ (trim seg).head? = some '<'))
    (hp : parseNode g n (trim seg) = (some nd, n1)) :
    patGo g (seg :: rest) cur nodes rels n =
      patGo g rest (some nd) (insertNode nodes nd) rels n1 := by
  simp [patGo, hbl, hh, hp]

theorem patGo_cons_nodeNone (g : Nat → Str) (seg : Str) (rest : List Str)
    (cur : Option Node) (nodes : List Node) (rels : List Rel) (n n1 : Nat)
    (hbl : ¬ trim seg = [])
    (hh : ¬ ((trim seg).head? = some '-' ∨ (trim seg).head? = some '<'))
    (hp : parseNode g n (trim seg) = (none, n1)) :
    patGo g (seg :: rest) cur nodes rels n =
      patGo g rest cur nodes rels n1 := by
  simp [patGo, hbl, hh, hp]

theorem patGo_rel {g1 g2 : Nat → Str} {p : Str} {N : Nat}
    (hg1 : NameOk N g1 p) (hg2 : NameOk N g2 p) :
    ∀ (segs : List Str) (n : Nat) (cur1 cur2 : Option Node)
      (nodes1 nodes2 : List Node) (rels1 rels2 : List Rel),
      n + 2 * segs.length ≤ N →
      (∀ s ∈ segs, s <:+: p) →
      OCurRel g1 g2 p n cur1 cur2 →
      List.Forall₂ (NdRel g1 g2 p n) nodes1 nodes2 →
      List.Forall₂ (RlRel g1 g2 p n) rels1 rels2 →
      ∃ n2 nds1 nds2 rls1 rls2,
        patGo g1 segs cur1 nodes1 rels1 n = ⟨nds1, rls1, n2⟩ ∧
        patGo g2 segs cur2 nodes2 rels2 n = ⟨nds2, rls2, n2⟩ ∧
        n2 ≤ N ∧
        List.Forall₂ (NdRel g1 g2 p n2) nds1 nds2 ∧
        List.Forall₂ (RlRel g1 g2 p n2) rls1 rls2 := by
  intro segs
  induction segs with
  | nil =>
    intro n cur1 cur2 nodes1 nodes2 rels1 rels2 hbound hsegs hcur hnd hrl
    refine ⟨n, nodes1, nodes2, rels1, rels2, rfl, rfl, ?_, hnd, hrl⟩
    omega
  | cons seg rest ih =>
    intro n cur1 cur2 nodes1 nodes2 rels1 rels2 hbound hsegs hcur hnd hrl
    have hseg : seg <:+: p := hsegs seg (List.mem_cons_self seg rest)
    have hrest : ∀ s ∈ rest, s <:+: p :=
      fun s hs => hsegs s (List.mem_cons_of_mem seg hs)
    have hlen : rest.length + 1 = (seg :: rest).length := rfl
    by_cases hbl : trim seg = []
    · rw [patGo_cons_blank g1 seg rest cur1 nodes1 rels1 n hbl,
        patGo_cons_blank g2 seg rest cur2 nodes2 rels2 n hbl]
      refine ih n cur1 cur2 nodes1 nodes2 rels1 rels2 ?_ hrest hcur hnd hrl
      simp only [List.length_cons] at hbound
      omega
    · by_cases hh : (trim seg).head? = some '-' ∨ (trim seg).head? = some '<'
      · cases hr : relSearch (trim seg) with
        | none =>
          rw [patGo_cons_relNone g1 seg rest cur1 nodes1 rels1 n hbl hh hr,
            patGo_cons_relNone g2 seg rest cur2 nodes2 rels2 n hbl hh hr]
          refine ih n cur1 cur2 nodes1 nodes2 rels1 rels2 ?_ hrest hcur hnd hrl
          simp only [List.length_cons] at hbound
          omega
        | some rg =>
          cases cur1 with
          | none =>
            cases cur2 with
            | some b => exact hcur.elim
            | none =>
              rw [patGo_cons_relSkip g1 seg rest nodes1 rels1 n rg hbl hh hr,
                patGo_cons_relSkip g2 seg rest nodes2 rels2 n rg hbl hh hr]
              refine ih n none none nodes1 nodes2 rels1 rels2 ?_ hrest
                trivial hnd hrl
              simp only [List.length_cons] at hbound
              omega
          | some curN1 =>
            cases cur2 with
            | none => exact hcur.elim
            | some curN2 =>
              cases rest with
              | nil =>
                rw [patGo_cons_relLast g1 seg curN1 nodes1 rels1 n rg hbl hh hr,
                  patGo_cons_relLast g2 seg curN2 nodes2 rels2 n rg hbl hh hr]
                refine ⟨n, nodes1, nodes2, rels1, rels2, rfl, rfl, ?_, hnd, hrl⟩
                simp only [List.length_cons] at hbound
                omega
              | cons nextSeg tl =>
                have hnext : nextSeg <:+: p :=
                  hrest nextSeg (List.mem_cons_self nextSeg tl)
                rcases @parseNode_rel g1 g2 p n nextSeg hnext with
                  ⟨hp1, hp2⟩ | ⟨a, b, n1, hp1, hp2, hab, hn1, hn1b⟩
                · rw [patGo_cons_relParseNone g1 seg nextSeg tl curN1 nodes1
                      rels1 n n rg hbl hh hr hp1,
                    patGo_cons_relParseNone g2 seg nextSeg tl curN2 nodes2
                      rels2 n n rg hbl hh hr hp2]
                  refine ih n (some curN1) (some curN2) nodes1 nodes2
                    rels1 rels2 ?_ hrest hcur hnd hrl
                  simp only [List.length_cons] at hbound ⊢
                  omega
                · rw [patGo_cons_relParseSome g1 seg nextSeg tl curN1 nodes1
                      rels1 n n1 rg a hbl hh hr hp1,
                    patGo_cons_relParseSome g2 seg nextSeg tl curN2 nodes2
                      rels2 n n1 rg b hbl hh hr hp2]
                  have hb2 : n1 + 1 ≤ N := by
                    simp only [List.length_cons] at hbound
                    omega
                  have habm : NdRel g1 g2 p (n1 + 1) a b :=
                    NdRel_mono (Nat.le_succ n1) hab
                  have hcurm : NdRel g1 g2 p (n1 + 1) curN1 curN2 :=
                    NdRel_mono (Nat.le_trans hn1 (Nat.le_succ n1)) hcur
                  refine ih (n1 + 1) (some curN1) (some curN2)
                    (insertNode nodes1 a) (insertNode nodes2 b)
                    (rels1 ++ [⟨g1 n1, rg.gvar, rg.glabel,
                      parseProps rg.gprops,
                      (if (trim seg).head? = some '<' then Dir.inc
                       else Dir.out), curN1.var, a.var⟩])
                    (rels2 ++ [⟨g2 n1, rg.gvar, rg.glabel,
                      parseProps rg.gprops,
                      (if (trim seg).head? = some '<' then Dir.inc
                       else Dir.out), curN2.var, b.var⟩]) ?_ hrest hcurm
                    ?_ ?_
                  · simp only [List.length_cons] at hbound ⊢
                    omega
                  · exact insertNode_rel hg1 hg2 hb2
                      (hnd.imp (fun _ _ hx =>
                        NdRel_mono (Nat.le_trans hn1 (Nat.le_succ n1)) hx))
                      habm
                  · refine List.rel_append
                      (hrl.imp (fun _ _ hx =>
                        RlRel_mono (Nat.le_trans hn1 (Nat.le_succ n1)) hx)) ?_
                    refine List.Forall₂.cons ?_ List.Forall₂.nil
                    exact ⟨rfl, rfl, rfl, rfl, hcurm.1, habm.1⟩
      · rcases @parseNode_rel g1 g2 p n (trim seg) (( trim_infix seg).trans hseg) with
          ⟨hp1, hp2⟩ | ⟨a, b, n1, hp1, hp2, hab, hn1, hn1b⟩
        · rw [patGo_cons_nodeNone g1 seg rest cur1 nodes1 rels1 n n hbl hh hp1,
            patGo_cons_nodeNone g2 seg rest cur2 nodes2 rels2 n n hbl hh hp2]
          refine ih n cur1 cur2 nodes1 nodes2 rels1 rels2 ?_ hrest hcur hnd hrl
          simp only [List.length_cons] at hbound
          omega
        · rw [patGo_cons_nodeSome g1 seg rest cur1 nodes1 rels1 n n1 a
              hbl hh hp1,
            patGo_cons_nodeSome g2 seg rest cur2 nodes2 rels2 n n1 b
              hbl hh hp2]
          have hb2 : n1 ≤ N := by
            simp only [List.length_cons] at hbound
            omega
          refine ih n1 (some a) (some b)
            (insertNode nodes1 a) (insertNode nodes2 b) rels1 rels2 ?_ hrest
            hab ?_ ?_
          · simp only [List.length_cons] at hbound ⊢
            omega
          · exact insertNode_rel hg1 hg2 hb2
              (hnd.imp (fun _ _ hx => NdRel_mono hn1 hx)) hab
          · exact hrl.imp (fun _ _ hx => RlRel_mono hn1 hx)

/-- Executable check for `NameOk`, for concrete supplies. -/
def NameOkB (N : Nat) (g : Nat → Str) (p : Str) : Bool :=
  (List.range N).all (fun k => decide (¬ (anonName g k <:+: p))) &&
  (List.range N).all (fun k => (List.range N).all (fun l =>
    decide (anonName g k = anonName g l → k = l)))

theorem NameOk_of_B {N : Nat} {g : Nat → Str} {p : Str}
    (h : NameOkB N g p = true) : NameOk N g p := by
  unfold NameOkB at h
  rw [Bool.and_eq_true] at h
  constructor
  · intro k hk
    exact of_decide_eq_true
      (List.all_eq_true.mp h.1 k (List.mem_range.mpr hk))
  · intro k l hk hl
    exact of_decide_eq_true
      (List.all_eq_true.mp
        (List.all_eq_true.mp h.2 k (List.mem_range.mpr hk))
        l (List.mem_range.mpr hl))

/-- C7: translation is a pure, deterministic map of the query text modulo
synthetic-name generation.  For any two runs whose uuid supplies are fresh
(no synthesized `anon_…` name occurs in the preprocessed query) and
collision-free below the draw bound, the two results are structurally
identical: the same error, or fragment sequences of equal shape that agree
on every keyword (`raw`) and literal fragment and differ at most in
identifier fragments, where they carry the two runs' anonymous names of the
same draw index (or `r_…` aliases built from them).  In particular no state
is shared or retained across calls: each run is fully determined by the
query text and its own supply. -/
theorem c7_translation_deterministic_modulo_names (q : Str) (g1 g2 : Nat → Str)
    (h1 : NameOk (nameBound q) g1 (preprocess q))
    (h2 : NameOk (nameBound q) g2 (preprocess q)) :
    OutRel g1 g2 (parse g1 q) (parse g2 q) := by
  unfold parse
  by_cases hm : matchClauseOf q = []
  · rw [if_pos hm, if_pos hm]
    exact rfl
  · rw [if_neg hm, if_neg hm]
    by_cases hrq : returnClauseOf q = []
    · rw [if_pos hrq, if_pos hrq]
      exact rfl
    · rw [if_neg hrq, if_neg hrq]
      have hmc : matchClauseOf q <:+: preprocess q :=
        extract1_infix kwMatch [kwWhere, kwReturn] (preprocess q)
      have hwc : whereClauseOf q <:+: preprocess q :=
        extract1_infix kwWhere [kwReturn] (preprocess q)
      have hrc : returnClauseOf q <:+: preprocess q :=
        extract1_infix kwReturn [] (preprocess q)
      have hmcle : (matchClauseOf q).length ≤ (preprocess q).length :=
        hmc.length_le
      have hsegl : (splitSegs (matchClauseOf q)).length ≤
          (matchClauseOf q).length + 1 :=
        splitSegsF_length (matchClauseOf q).length (matchClauseOf q)
      have hbound : 0 + 2 * (splitSegs (matchClauseOf q)).length ≤
          nameBound q := by
        unfold nameBound
        omega
      have hsegs : ∀ s ∈ splitSegs (matchClauseOf q), s <:+: preprocess q :=
        fun s hs =>
          ( splitSegsF_mem_infix (matchClauseOf q).length (matchClauseOf q)
            s hs).trans hmc
      obtain ⟨n2, nds1, nds2, rls1, rls2, hP1, hP2, hn2, hndF, hrlF⟩ :=
        patGo_rel h1 h2 (splitSegs (matchClauseOf q)) 0 none none [] [] [] []
          hbound hsegs trivial List.Forall₂.nil List.Forall₂.nil
      have hPP1 : parsePattern g1 0 (matchClauseOf q) = ⟨nds1, rls1, n2⟩ := hP1
      have hPP2 : parsePattern g2 0 (matchClauseOf q) = ⟨nds2, rls2, n2⟩ := hP2
      rw [hPP1, hPP2]
      show OutRel g1 g2
        (match generateSql nds1 rls1 (whereClauseOf q) (returnClauseOf q) with
         | some out => Except.ok out
         | none => Except.error PErr.crash)
        (match generateSql nds2 rls2 (whereClauseOf q) (returnClauseOf q) with
         | some out => Except.ok out
         | none => Except.error PErr.crash)
      rcases generateSql_rel h1 h2 hn2 hndF hrlF hwc hrc with
        ⟨hn1, hnn2⟩ | ⟨out1, out2, ho1, ho2, hfr⟩
      · rw [hn1, hnn2]
        exact rfl
      · rw [ho1, ho2]
        exact hfr

theorem c7_witness :
    NameOkB (nameBound q8) gw (preprocess q8) = true ∧
    NameOkB (nameBound q8) gw2 (preprocess q8) = true ∧
    OutRel gw gw2 (parse gw q8) (parse gw2 q8) :=
  ⟨by decide, by decide,
    c7_translation_deterministic_modulo_names q8 gw gw2
      (NameOk_of_B (by decide)) (NameOk_of_B (by decide))⟩

/-! ### C8: the anonymous node segment after a relationship segment -/

def qc8 : Str := str "MATCH (a)-[:R]->()-[:S]->(c) RETURN *"

/-- C8 counterexample: in `MATCH (a)-[:R]->()-[:S]->(c) RETURN *` the
anonymous segment `()` follows the relationship segment `-[:R]->`, so the
claim's antecedent holds — yet the second synthetic entry (`anon_` of draw
index 2) does belong to a relationship: the segment loop makes it the
current node, so it becomes the SOURCE of the following relationship `S`.
The node mapping holds both synthetic entries and the relationship list is
`R : a → anon#0`, `S : anon#2 → c`. -/
theorem c8_cex_second_entry_sources_next_rel :
    (parsePattern gw 0 (matchClauseOf qc8)).nodes.map Node.var =
      [str "a", anonName gw 0, anonName gw 2, str "c"] ∧
    (parsePattern gw 0 (matchClauseOf qc8)).rels.map Rel.source =
      [str "a", anonName gw 2] ∧
    (parsePattern gw 0 (matchClauseOf qc8)).rels.map Rel.target =
      [anonName gw 0, str "c"] ∧
    anonName gw 2 ∈ (parsePattern gw 0 (matchClauseOf qc8)).rels.map Rel.source := by
  refine ⟨by decide, by decide, by decide, by decide⟩

/-- C8 (amended): whenever the segment loop, holding a current node, meets a
relationship segment followed by a node segment that omits its variable, it
parses that one textual node segment twice, inserting two entries with
synthetic names of the distinct uuid-draw indices `n` and `n + 2` (the
relationship id takes draw `n + 1`): the relationship's target names the
first entry, while the second entry replaces the current node — so it is
the source of the next relationship whenever the pattern continues with
one, and belongs to no relationship and to no FROM/JOIN source only when
the anonymous segment ends the pattern, where the `*` projection and the
fallback projection still emit all-columns fragments for both synthetic
aliases (shown concretely for `MATCH (a)-[:R]->() RETURN *` and
`… RETURN zzz`). -/
theorem c8_anon_segment_parsed_twice :
    (∀ (g : Nat → Str) (seg nextSeg : Str) (tl : List Str) (curN : Node)
      (nodes : List Node) (rels : List Rel) (n : Nat) (rg gr1 gr2 : Groups),
      ¬ trim seg = [] →
      ((trim seg).head? = some '-' ∨ (trim seg).head? = some '<') →
      relSearch (trim seg) = some rg →
      nodeSearch nextSeg = some gr1 →
      gr1.gvar = none →
      ¬ trim nextSeg = [] →
      ¬ ((trim nextSeg).head? = some '-' ∨ (trim nextSeg).head? = some '<') →
      nodeSearch (trim nextSeg) = some gr2 →
      gr2.gvar = none →
      patGo g (seg :: nextSeg :: tl) (some curN) nodes rels n =
        patGo g tl
          (some ⟨anonName g (n + 2), gr2.glabel, parseProps gr2.gprops⟩)
          (insertNode
            (insertNode nodes
              ⟨anonName g n, gr1.glabel, parseProps gr1.gprops⟩)
            ⟨anonName g (n + 2), gr2.glabel, parseProps gr2.gprops⟩)
          (rels ++ [⟨g (n + 1), rg.gvar, rg.glabel, parseProps rg.gprops,
            (if (trim seg).head? = some '<' then Dir.inc else Dir.out),
            curN.var, anonName g n⟩])
          (n + 3)) ∧
    (parsePattern gw 0 (matchClauseOf q8)).nodes.map Node.var =
      [str "a", anonName gw 0, anonName gw 2] ∧
    anonName gw 0 ≠ anonName gw 2 ∧
    (parsePattern gw 0 (matchClauseOf q8)).rels.map Rel.source = [str "a"] ∧
    (parsePattern gw 0 (matchClauseOf q8)).rels.map Rel.target = [anonName gw 0] ∧
    parse gw q8 = .ok out8 ∧
    [Frag.ident (anonName gw 0), Frag.raw (str ".*")] <:+: out8 ∧
    [Frag.ident (anonName gw 2), Frag.raw (str ".*")] <:+: out8 ∧
    nodeJoinChunk (anonName gw 0) <:+: out8 ∧
    ¬ nodeJoinChunk (anonName gw 2) <:+: out8 ∧
    ¬ [Frag.raw (str " FROM pgraf.nodes AS "), Frag.ident (anonName gw 2)] <:+: out8 ∧
    parse gw q8b = .ok out8b ∧
    [Frag.ident (anonName gw 0), Frag.raw (str ".*")] <:+: out8b ∧
    [Frag.ident (anonName gw 2), Frag.raw (str ".*")] <:+: out8b := by
  refine ⟨?_, by decide, by decide, by decide, by decide, rfl, by decide,
    by decide, by decide, by decide, by decide, rfl, by decide, by decide⟩
  intro g seg nextSeg tl curN nodes rels n rg gr1 gr2 hbl hh hr hs1 hv1
    hbl2 hh2 hs2 hv2
  rw [patGo_cons_relParseSome g seg nextSeg tl curN nodes rels n (n + 1) rg
    ⟨anonName g n, gr1.glabel, parseProps gr1.gprops⟩ hbl hh hr
    (parseNode_eq_anon hs1 hv1)]
  exact patGo_cons_nodeSome g nextSeg tl (some curN) _ _ (n + 2) (n + 3)
    ⟨anonName g (n + 2), gr2.glabel, parseProps gr2.gprops⟩ hbl2 hh2
    (parseNode_eq_anon hs2 hv2)

theorem c8_witness :
    relSearch (trim (str "-[:R]->")) = some ⟨none, some (str "R"), none⟩ ∧
    nodeSearch (str "()") = some ⟨none, none, none⟩ ∧
    anonName gw 0 ≠ anonName gw 2 ∧
    patGo gw [str "-[:R]->", str "()"] (some ⟨str "a", none, []⟩)
        [⟨str "a", none, []⟩] [] 0 =
      patGo gw [] (some ⟨anonName gw 2, none, []⟩)
        (insertNode (insertNode [⟨str "a", none, []⟩]
          ⟨anonName gw 0, none, []⟩) ⟨anonName gw 2, none, []⟩)
        ([] ++ [⟨gw 1, none, some (str "R"), [], Dir.out, str "a",
          anonName gw 0⟩]) 3 :=
  ⟨by decide, by decide, by decide,
    c8_anon_segment_parsed_twice.1 gw (str "-[:R]->") (str "()") []
      ⟨str "a", none, []⟩ [⟨str "a", none, []⟩] [] 0
      ⟨none, some (str "R"), none⟩ ⟨none, none, none⟩ ⟨none, none, none⟩
      (by decide) (by decide) (by decide) (by decide) rfl (by decide)
      (by decide) (by decide) rfl⟩

end PgrafCypher
